import Mathlib

/-!
Verification of the descriptor codec, path resolver and optimizer service of
the `leptos-image` repository (`src/optimizer.rs`).

Rust `String`s are modelled as lists of UTF-8 bytes (`List Nat`, each < 256);
`u32`/`u8` fields are `Nat` together with a well-formedness predicate bounding
them by `2^32` / `2^8`.  The serde_qs query-string codec, base64 (standard
alphabet, padded, strict decoding) and the `std::path` operations used by the
source (`PathBuf` collection, `set_extension`, `file_stem`) are embedded
byte-for-byte from their documented behaviour, restricted to the data that the
source feeds them.
-/

/-- ASCII bytes of a Lean string literal (used only for ASCII literals that
appear verbatim in the source). -/
def str (s : String) : List Nat := s.data.map Char.toNat

/-- `Vec<&str>`-style split of a byte string on a separator byte, exactly like
Rust `str::split(c)`: `n` separators yield `n+1` (possibly empty) pieces. -/
def bsplit (sep : Nat) : List Nat → List (List Nat)
  | [] => [[]]
  | b :: t =>
    if b = sep then [] :: bsplit sep t
    else
      match bsplit sep t with
      | [] => [[b]]
      | h :: r => (b :: h) :: r

/-- Join byte strings with a single separator byte between consecutive pieces
(the way `PathBuf::push` joins normalized segments with `/`). -/
def joinSep (sep : Nat) : List (List Nat) → List Nat
  | [] => []
  | [a] => a
  | a :: r => a ++ sep :: joinSep sep r

/-- Split at the first occurrence of `sep`: returns the part before it and
(some) part after it, or `none` if `sep` does not occur. -/
def splitFirst (sep : Nat) : List Nat → (List Nat × Option (List Nat))
  | [] => ([], none)
  | b :: t =>
    if b = sep then ([], some t)
    else
      let (k, v) := splitFirst sep t
      (b :: k, v)

/-- Index and value of the last element satisfying `p` (used to model the
back-to-front component scan of `Path::file_name` / `file_stem`). -/
def lastMatch {α : Type} (p : α → Bool) : List α → Option (Nat × α)
  | [] => none
  | a :: t =>
    match lastMatch p t with
    | some (i, x) => some (i + 1, x)
    | none => if p a then some (0, a) else none

/-- Option-valued map over a list, failing if any element fails. -/
def mapMO {α β : Type} (f : α → Option β) : List α → Option (List β)
  | [] => some []
  | a :: t =>
    match f a, mapMO f t with
    | some b, some r => some (b :: r)
    | _, _ => none

-- Basic sanity checks of the embedding utilities.
example : str "ab" = [97, 98] := by decide
example : bsplit 47 (str "a//b") = [[97], [], [98]] := by decide
example : joinSep 47 [[97], [], [98]] = str "a//b" := by decide
example : splitFirst 61 (str "k=v=w") = (str "k", some (str "v=w")) := by decide
example : lastMatch (fun b => b == 46) (str "a.b.c") = some (3, 46) := by decide

/-! ## Percent-encoding (serde_qs `QS_ENCODE_SET`) -/

/-- Bytes serde_qs leaves unencoded: ASCII alphanumerics plus `*`, `-`, `.`,
`_` (percent_encoding's `NON_ALPHANUMERIC` with those four removed). -/
def qsAllowed (b : Nat) : Bool :=
  (48 ≤ b && b ≤ 57) || (65 ≤ b && b ≤ 90) || (97 ≤ b && b ≤ 122) ||
    b == 42 || b == 45 || b == 46 || b == 95

/-- Uppercase hex digit byte of a nibble, as emitted by percent_encoding. -/
def hexDigitU (v : Nat) : Nat := if v < 10 then 48 + v else 55 + v

/-- Value of a hex digit byte (either case accepted on decoding). -/
def hexVal (b : Nat) : Option Nat :=
  if 48 ≤ b ∧ b ≤ 57 then some (b - 48)
  else if 65 ≤ b ∧ b ≤ 70 then some (b - 55)
  else if 97 ≤ b ∧ b ≤ 102 then some (b - 87)
  else none

/-- Percent-encode a byte string the way serde_qs serializes keys and values. -/
def pencode : List Nat → List Nat
  | [] => []
  | b :: t =>
    if qsAllowed b then b :: pencode t
    else 37 :: hexDigitU (b / 16) :: hexDigitU (b % 16) :: pencode t

/-- Percent-decode (with `+` → space) the way serde_qs parses keys and values;
a malformed `%` sequence is a decode error. -/
def pdecode : List Nat → Option (List Nat)
  | [] => some []
  | b :: t =>
    if b = 43 then (pdecode t).map (fun r => 32 :: r)
    else if b = 37 then
      match t with
      | h1 :: h2 :: t' =>
        match hexVal h1, hexVal h2 with
        | some v1, some v2 => (pdecode t').map (fun r => (v1 * 16 + v2) :: r)
        | _, _ => none
      | _ => none
    else (pdecode t).map (fun r => b :: r)

theorem hexVal_hexDigitU {v : Nat} (h : v < 16) : hexVal (hexDigitU v) = some v := by
  unfold hexVal hexDigitU
  split_ifs <;> first
    | (exfalso; omega)
    | (simp only [Option.some.injEq]; omega)

theorem qsAllowed_ne {b : Nat} (h : qsAllowed b = true) : b ≠ 43 ∧ b ≠ 37 := by
  simp only [qsAllowed, Bool.or_eq_true, Bool.and_eq_true, decide_eq_true_eq,
    beq_iff_eq] at h
  omega

theorem pdecode_cons_plain {b : Nat} (t : List Nat) (h43 : b ≠ 43) (h37 : b ≠ 37) :
    pdecode (b :: t) = (pdecode t).map (fun r => b :: r) := by
  rw [pdecode.eq_def]
  simp only [if_neg h43, if_neg h37]

theorem pdecode_cons_pct {h1 h2 v1 v2 : Nat} (t : List Nat)
    (hh1 : hexVal h1 = some v1) (hh2 : hexVal h2 = some v2) :
    pdecode (37 :: h1 :: h2 :: t) = (pdecode t).map (fun r => (v1 * 16 + v2) :: r) := by
  rw [pdecode.eq_def]
  norm_num [hh1, hh2]

/-- Percent-decoding inverts percent-encoding on byte strings. -/
theorem pdecode_pencode {s : List Nat} (h : ∀ b ∈ s, b < 256) :
    pdecode (pencode s) = some s := by
  induction s with
  | nil => rfl
  | cons b t ih =>
    have hb : b < 256 := h b (by simp)
    have ht := ih (fun x hx => h x (by simp [hx]))
    by_cases hall : qsAllowed b = true
    · have ⟨h43, h37⟩ := qsAllowed_ne hall
      simp only [pencode, hall, if_true]
      rw [pdecode_cons_plain _ h43 h37, ht]
      rfl
    · rw [show pencode (b :: t) = 37 :: hexDigitU (b / 16) :: hexDigitU (b % 16) :: pencode t by
        simp only [pencode, if_neg hall]]
      rw [pdecode_cons_pct _ (hexVal_hexDigitU (by omega)) (hexVal_hexDigitU (by omega)), ht]
      simp only [Option.map_some', Option.some.injEq, List.cons.injEq]
      exact ⟨by omega, trivial⟩

/-- Every byte of a percent-encoded string is below 123 and is none of
`&` (38), `=` (61), `?` (63), `/` (47), `[` (91), `]` (93). -/
theorem pencode_mem {s : List Nat} (h : ∀ b ∈ s, b < 256) :
    ∀ x ∈ pencode s, x < 123 ∧ x ≠ 38 ∧ x ≠ 61 ∧ x ≠ 63 ∧ x ≠ 47 ∧ x ≠ 91 ∧ x ≠ 93 := by
  induction s with
  | nil => simp [pencode]
  | cons b t ih =>
    have hb : b < 256 := h b (by simp)
    have ht := ih (fun x hx => h x (by simp [hx]))
    intro x hx
    have hhex : ∀ v : Nat, v < 16 →
        hexDigitU v < 123 ∧ hexDigitU v ≠ 38 ∧ hexDigitU v ≠ 61 ∧ hexDigitU v ≠ 63 ∧
          hexDigitU v ≠ 47 ∧ hexDigitU v ≠ 91 ∧ hexDigitU v ≠ 93 := by
      intro v hv
      unfold hexDigitU
      split_ifs <;> omega
    by_cases hall : qsAllowed b = true
    · simp only [pencode, hall, if_true, List.mem_cons] at hx
      rcases hx with rfl | hx
      · simp only [qsAllowed, Bool.or_eq_true, Bool.and_eq_true, decide_eq_true_eq,
          beq_iff_eq] at hall
        omega
      · exact ht x hx
    · simp only [pencode, hall, if_false] at hx
      rcases List.mem_cons.mp hx with rfl | hx
      · omega
      rcases List.mem_cons.mp hx with rfl | hx
      · exact hhex _ (by omega)
      rcases List.mem_cons.mp hx with rfl | hx
      · exact hhex _ (by omega)
      exact ht x hx

/-! ## Decimal integers (itoa on serialization, `str::parse` on deserialization) -/

/-- Decimal digit bytes of `n`, most significant first (fuel-structured so the
kernel can evaluate it; `natDec` supplies enough fuel). -/
def natDecAux : Nat → Nat → List Nat
  | 0, _ => []
  | fuel + 1, n =>
    if n < 10 then [48 + n] else natDecAux fuel (n / 10) ++ [48 + n % 10]

/-- Canonical decimal representation of a natural, as emitted by serde/itoa. -/
def natDec (n : Nat) : List Nat := natDecAux (n + 1) n

/-- Fold decimal digit bytes left-to-right; fails on a non-digit byte. -/
def parseNatCore : List Nat → Nat → Option Nat
  | [], acc => some acc
  | b :: t, acc =>
    if 48 ≤ b ∧ b ≤ 57 then parseNatCore t (acc * 10 + (b - 48)) else none

/-- Strip one optional leading `+` sign (accepted by Rust integer parsing). -/
def stripPlus (s : List Nat) : List Nat :=
  match s with
  | 43 :: t => t
  | _ => s

/-- Rust `u32::from_str`: optional leading `+`, at least one digit, value
must fit in 32 bits. -/
def parseU32 (s : List Nat) : Option Nat :=
  let digits := stripPlus s
  if digits = [] then none
  else
    match parseNatCore digits 0 with
    | some v => if v < 2 ^ 32 then some v else none
    | none => none

/-- Rust `u8::from_str`: optional leading `+`, at least one digit, value must
fit in 8 bits. -/
def parseU8 (s : List Nat) : Option Nat :=
  let digits := stripPlus s
  if digits = [] then none
  else
    match parseNatCore digits 0 with
    | some v => if v < 2 ^ 8 then some v else none
    | none => none

theorem stripPlus_of_ne {b : Nat} (t : List Nat) (h : b ≠ 43) : stripPlus (b :: t) = b :: t := by
  unfold stripPlus
  split
  · rename_i heq
    injection heq with h1 _
    exact absurd h1 h
  · rfl

theorem parseNatCore_append (a b : List Nat) (acc : Nat) :
    parseNatCore (a ++ b) acc =
      match parseNatCore a acc with
      | some m => parseNatCore b m
      | none => none := by
  induction a generalizing acc with
  | nil => simp [parseNatCore]
  | cons x t ih =>
    by_cases hx : 48 ≤ x ∧ x ≤ 57
    · simp only [List.cons_append, parseNatCore, if_pos hx]
      exact ih _
    · simp only [List.cons_append, parseNatCore, if_neg hx]

theorem natDecAux_spec (fuel : Nat) : ∀ n acc, n < fuel →
    parseNatCore (natDecAux fuel n) acc =
      some (acc * 10 ^ (natDecAux fuel n).length + n) := by
  induction fuel with
  | zero => intro n acc h; omega
  | succ fuel ih =>
    intro n acc h
    by_cases hn : n < 10
    · have : 48 ≤ 48 + n ∧ 48 + n ≤ 57 := by omega
      simp only [natDecAux, if_pos hn, parseNatCore, this, List.length_cons,
        List.length_nil, if_pos this]
      norm_num
    · have hrec : n / 10 < fuel := by omega
      simp only [natDecAux, if_neg hn]
      rw [parseNatCore_append, ih (n / 10) acc hrec]
      have hd : 48 ≤ 48 + n % 10 ∧ 48 + n % 10 ≤ 57 := by omega
      simp only [parseNatCore, if_pos hd, List.length_append, List.length_cons,
        List.length_nil]
      have : 48 + n % 10 - 48 = n % 10 := by omega
      rw [this]
      congr 1
      rw [pow_succ]
      ring_nf
      omega

theorem natDecAux_digits (fuel : Nat) : ∀ n, ∀ b ∈ natDecAux fuel n, 48 ≤ b ∧ b ≤ 57 := by
  induction fuel with
  | zero => intro n b hb; simp [natDecAux] at hb
  | succ fuel ih =>
    intro n b hb
    by_cases hn : n < 10
    · simp only [natDecAux, if_pos hn, List.mem_singleton] at hb
      omega
    · simp only [natDecAux, if_neg hn, List.mem_append, List.mem_singleton] at hb
      rcases hb with hb | rfl
      · exact ih _ b hb
      · omega

theorem natDecAux_ne_nil (fuel n : Nat) (h : n < fuel) : natDecAux fuel n ≠ [] := by
  match fuel with
  | 0 => omega
  | fuel + 1 =>
    by_cases hn : n < 10
    · simp [natDecAux, if_pos hn]
    · simp [natDecAux, if_neg hn]

theorem natDec_digits (n : Nat) : ∀ b ∈ natDec n, 48 ≤ b ∧ b ≤ 57 :=
  natDecAux_digits (n + 1) n

theorem natDec_ne_nil (n : Nat) : natDec n ≠ [] :=
  natDecAux_ne_nil (n + 1) n (by omega)

theorem parseNatCore_natDec (n : Nat) : parseNatCore (natDec n) 0 = some n := by
  have := natDecAux_spec (n + 1) n 0 (by omega)
  simpa [natDec] using this

theorem parseU32_natDec {n : Nat} (h : n < 2 ^ 32) : parseU32 (natDec n) = some n := by
  obtain ⟨b, t, hbt⟩ : ∃ b t, natDec n = b :: t := by
    match hd : natDec n with
    | [] => exact absurd hd (natDec_ne_nil n)
    | b :: t => exact ⟨b, t, rfl⟩
  have hdig : 48 ≤ b ∧ b ≤ 57 := natDec_digits n b (by rw [hbt]; simp)
  have hcore := parseNatCore_natDec n
  rw [hbt] at hcore
  unfold parseU32
  rw [hbt, stripPlus_of_ne t (by omega)]
  simp only [reduceCtorEq, if_neg (List.cons_ne_nil b t), hcore, if_pos h, if_false]

theorem parseU8_natDec {n : Nat} (h : n < 2 ^ 8) : parseU8 (natDec n) = some n := by
  obtain ⟨b, t, hbt⟩ : ∃ b t, natDec n = b :: t := by
    match hd : natDec n with
    | [] => exact absurd hd (natDec_ne_nil n)
    | b :: t => exact ⟨b, t, rfl⟩
  have hdig : 48 ≤ b ∧ b ≤ 57 := natDec_digits n b (by rw [hbt]; simp)
  have hcore := parseNatCore_natDec n
  rw [hbt] at hcore
  unfold parseU8
  rw [hbt, stripPlus_of_ne t (by omega)]
  simp only [reduceCtorEq, if_neg (List.cons_ne_nil b t), hcore, if_pos h, if_false]

/-! ## base64 (crate `base64`, `general_purpose::STANDARD`: padded, strict) -/

/-- Byte of the standard-alphabet base64 character for a 6-bit value. -/
def b64chr (v : Nat) : Nat :=
  if v < 26 then 65 + v
  else if v < 52 then 71 + v
  else if v < 62 then v - 4
  else if v = 62 then 43
  else 47

/-- 6-bit value of a standard-alphabet base64 character byte. -/
def b64idx (b : Nat) : Option Nat :=
  if 65 ≤ b ∧ b ≤ 90 then some (b - 65)
  else if 97 ≤ b ∧ b ≤ 122 then some (b - 71)
  else if 48 ≤ b ∧ b ≤ 57 then some (b + 4)
  else if b = 43 then some 62
  else if b = 47 then some 63
  else none

/-- `general_purpose::STANDARD.encode`: chunk the input into 3-byte groups,
emit 4 alphabet characters per full group, pad the final group with `=`. -/
def b64encode : List Nat → List Nat
  | [] => []
  | [b0] => [b64chr (b0 / 4), b64chr (b0 % 4 * 16), 61, 61]
  | [b0, b1] => [b64chr (b0 / 4), b64chr (b0 % 4 * 16 + b1 / 16), b64chr (b1 % 16 * 4), 61]
  | b0 :: b1 :: b2 :: rest =>
    b64chr (b0 / 4) :: b64chr (b0 % 4 * 16 + b1 / 16) ::
      b64chr (b1 % 16 * 4 + b2 / 64) :: b64chr (b2 % 64) :: b64encode rest

/-- `general_purpose::STANDARD.decode`: strict decoding — length must be a
multiple of 4, `=` only as canonical final padding, trailing bits must be
zero, anything outside the alphabet is rejected. -/
def b64decode : List Nat → Option (List Nat)
  | [] => some []
  | c0 :: c1 :: c2 :: c3 :: rest =>
    if rest = [] ∧ c2 = 61 ∧ c3 = 61 then
      match b64idx c0, b64idx c1 with
      | some v0, some v1 => if v1 % 16 = 0 then some [v0 * 4 + v1 / 16] else none
      | _, _ => none
    else if rest = [] ∧ c3 = 61 then
      match b64idx c0, b64idx c1, b64idx c2 with
      | some v0, some v1, some v2 =>
        if v2 % 4 = 0 then some [v0 * 4 + v1 / 16, v1 % 16 * 16 + v2 / 4] else none
      | _, _, _ => none
    else
      match b64idx c0, b64idx c1, b64idx c2, b64idx c3, b64decode rest with
      | some v0, some v1, some v2, some v3, some bs =>
        some ((v0 * 4 + v1 / 16) :: (v1 % 16 * 16 + v2 / 4) :: (v2 % 4 * 64 + v3) :: bs)
      | _, _, _, _, _ => none
  | _ => none

example : b64encode (str "Man") = str "TWFu" := by decide
example : b64encode (str "Ma") = str "TWE=" := by decide
example : b64encode (str "M") = str "TQ==" := by decide
example : b64decode (str "TWFu") = some (str "Man") := by decide
example : b64decode (str "cache") = none := by decide
example : b64decode (str "image") = none := by decide
example : b64decode (str "TWF=") = none := by decide

theorem b64idx_b64chr {v : Nat} (h : v < 64) : b64idx (b64chr v) = some v := by
  unfold b64idx b64chr
  split_ifs <;> first
    | (exfalso; omega)
    | (simp only [Option.some.injEq]; omega)

theorem b64chr_ne_61 (v : Nat) : b64chr v ≠ 61 := by
  unfold b64chr
  split_ifs <;> omega

/-- Strict decoding inverts encoding on byte strings. -/
theorem b64decode_b64encode {bs : List Nat} (h : ∀ b ∈ bs, b < 256) :
    b64decode (b64encode bs) = some bs := by
  induction bs using b64encode.induct with
  | case1 => rfl
  | case2 b0 =>
    have hb0 : b0 < 256 := h b0 (by simp)
    rw [b64encode, b64decode]
    rw [if_pos ⟨rfl, rfl, rfl⟩]
    rw [b64idx_b64chr (by omega), b64idx_b64chr (by omega)]
    show (if b0 % 4 * 16 % 16 = 0 then some [b0 / 4 * 4 + b0 % 4 * 16 / 16] else none) =
      some [b0]
    rw [if_pos (by omega)]
    simp only [Option.some.injEq, List.cons.injEq, and_true]
    omega
  | case3 b0 b1 =>
    have hb0 : b0 < 256 := h b0 (by simp)
    have hb1 : b1 < 256 := h b1 (by simp)
    rw [b64encode, b64decode]
    rw [if_neg (by rintro ⟨-, h2, -⟩; exact b64chr_ne_61 _ h2)]
    rw [if_pos ⟨rfl, rfl⟩]
    rw [b64idx_b64chr (by omega), b64idx_b64chr (by omega), b64idx_b64chr (by omega)]
    show (if b1 % 16 * 4 % 4 = 0 then
        some [b0 / 4 * 4 + (b0 % 4 * 16 + b1 / 16) / 16,
          (b0 % 4 * 16 + b1 / 16) % 16 * 16 + b1 % 16 * 4 / 4]
      else none) = some [b0, b1]
    rw [if_pos (by omega)]
    simp only [Option.some.injEq, List.cons.injEq, and_true]
    exact ⟨by omega, by omega⟩
  | case4 b0 b1 b2 rest ih =>
    have hb0 : b0 < 256 := h b0 (by simp)
    have hb1 : b1 < 256 := h b1 (by simp)
    have hb2 : b2 < 256 := h b2 (by simp)
    have hrest := ih (fun x hx => h x (by simp [hx]))
    rw [b64encode, b64decode]
    rw [if_neg (by rintro ⟨-, -, h3⟩; exact b64chr_ne_61 _ h3)]
    rw [if_neg (by rintro ⟨-, h3⟩; exact b64chr_ne_61 _ h3)]
    rw [b64idx_b64chr (by omega), b64idx_b64chr (by omega), b64idx_b64chr (by omega),
      b64idx_b64chr (by omega), hrest]
    simp only [Option.some.injEq, List.cons.injEq]
    refine ⟨by omega, by omega, by omega, trivial⟩

theorem b64chr_props {v : Nat} (h : v < 63) : b64chr v ≠ 47 ∧ b64chr v ≠ 46 := by
  unfold b64chr
  split_ifs <;> omega

/-- Base64 output of a query string (ASCII below 123, no `?`) never contains
`/` (47) or `.` (46) — so the encoded token survives as one path segment and
`set_extension` cannot mistake part of it for an extension. -/
theorem b64encode_mem {bs : List Nat} (h : ∀ b ∈ bs, b < 123 ∧ b ≠ 63) :
    ∀ x ∈ b64encode bs, x ≠ 47 ∧ x ≠ 46 := by
  induction bs using b64encode.induct with
  | case1 => simp [b64encode]
  | case2 b0 =>
    have hb0 := h b0 (by simp)
    intro x hx
    rw [b64encode] at hx
    rcases List.mem_cons.mp hx with rfl | hx
    · exact b64chr_props (by omega)
    rcases List.mem_cons.mp hx with rfl | hx
    · exact b64chr_props (by omega)
    rcases List.mem_cons.mp hx with rfl | hx
    · omega
    rcases List.mem_cons.mp hx with rfl | hx
    · omega
    simp at hx
  | case3 b0 b1 =>
    have hb0 := h b0 (by simp)
    have hb1 := h b1 (by simp)
    intro x hx
    rw [b64encode] at hx
    rcases List.mem_cons.mp hx with rfl | hx
    · exact b64chr_props (by omega)
    rcases List.mem_cons.mp hx with rfl | hx
    · exact b64chr_props (by omega)
    rcases List.mem_cons.mp hx with rfl | hx
    · exact b64chr_props (by omega)
    rcases List.mem_cons.mp hx with rfl | hx
    · omega
    simp at hx
  | case4 b0 b1 b2 rest ih =>
    have hb0 := h b0 (by simp)
    have hb1 := h b1 (by simp)
    have hb2 := h b2 (by simp)
    have hrest := ih (fun x hx => h x (by simp [hx]))
    intro x hx
    rw [b64encode] at hx
    rcases List.mem_cons.mp hx with rfl | hx
    · exact b64chr_props (by omega)
    rcases List.mem_cons.mp hx with rfl | hx
    · exact b64chr_props (by omega)
    rcases List.mem_cons.mp hx with rfl | hx
    · exact b64chr_props (by omega)
    rcases List.mem_cons.mp hx with rfl | hx
    · exact b64chr_props (by omega)
    exact hrest x hx

theorem b64encode_ne_nil {bs : List Nat} (h : bs ≠ []) : b64encode bs ≠ [] := by
  match bs, h with
  | [b0], _ => simp [b64encode]
  | [b0, b1], _ => simp [b64encode]
  | b0 :: b1 :: b2 :: rest, _ => simp [b64encode]

/-! ## UTF-8 validation (Rust `String::from_utf8`) -/

/-- Continuation-byte ranges demanded by a UTF-8 lead byte (RFC 3629 table);
`none` for an invalid lead byte. -/
def utf8class (b : Nat) : Option (List (Nat × Nat)) :=
  if b ≤ 127 then some []
  else if 194 ≤ b ∧ b ≤ 223 then some [(128, 191)]
  else if b = 224 then some [(160, 191), (128, 191)]
  else if 225 ≤ b ∧ b ≤ 236 then some [(128, 191), (128, 191)]
  else if b = 237 then some [(128, 159), (128, 191)]
  else if 238 ≤ b ∧ b ≤ 239 then some [(128, 191), (128, 191)]
  else if b = 240 then some [(144, 191), (128, 191), (128, 191)]
  else if 241 ≤ b ∧ b ≤ 243 then some [(128, 191), (128, 191), (128, 191)]
  else if b = 244 then some [(128, 143), (128, 191), (128, 191)]
  else none

/-- Consume the expected continuation bytes, returning the remaining suffix. -/
def utf8expect : List (Nat × Nat) → List Nat → Option (List Nat)
  | [], t => some t
  | (lo, hi) :: es, b :: t => if lo ≤ b ∧ b ≤ hi then utf8expect es t else none
  | _ :: _, [] => none

/-- UTF-8 validity, structured with explicit fuel (one unit per decoded
character, so `l.length` always suffices) to keep kernel evaluation possible. -/
def validUtf8Aux : Nat → List Nat → Bool
  | 0, l => l.isEmpty
  | _ + 1, [] => true
  | fuel + 1, b :: t =>
    match utf8class b with
    | none => false
    | some es =>
      match utf8expect es t with
      | none => false
      | some t' => validUtf8Aux fuel t'

/-- Standard UTF-8 well-formedness of a byte sequence. -/
def validUtf8 (l : List Nat) : Bool := validUtf8Aux l.length l

/-- Rust `String::from_utf8` on the byte model: succeeds (with the same bytes)
exactly on valid UTF-8. -/
def string_from_utf8 (bs : List Nat) : Option (List Nat) :=
  if validUtf8 bs then some bs else none

theorem validUtf8Aux_of_ascii {bs : List Nat} (h : ∀ b ∈ bs, b ≤ 127) :
    ∀ fuel, bs.length ≤ fuel → validUtf8Aux fuel bs = true := by
  induction bs with
  | nil =>
    intro fuel _
    match fuel with
    | 0 => rfl
    | fuel + 1 => rfl
  | cons b t ih =>
    intro fuel hle
    match fuel with
    | 0 => simp at hle
    | fuel + 1 =>
      have hb : b ≤ 127 := h b (by simp)
      rw [validUtf8Aux]
      simp only [utf8class, if_pos hb, utf8expect]
      exact ih (fun x hx => h x (by simp [hx])) fuel (by simp at hle; omega)

theorem validUtf8_of_ascii {bs : List Nat} (h : ∀ b ∈ bs, b ≤ 127) :
    validUtf8 bs = true :=
  validUtf8Aux_of_ascii h bs.length (Nat.le_refl _)

theorem string_from_utf8_of_ascii {bs : List Nat} (h : ∀ b ∈ bs, b ≤ 127) :
    string_from_utf8 bs = some bs := by
  rw [string_from_utf8, if_pos (validUtf8_of_ascii h)]

/-! ## Data model (`CachedImage`, `CachedImageOption`, `Resize`, `Blur`) -/

/-- `struct Resize { width: u32, height: u32, quality: u8 }` (serde tags
`w`, `h`, `q`). -/
structure Resize where
  width : Nat
  height : Nat
  quality : Nat
deriving DecidableEq, Repr

/-- `struct Blur { width: u32, height: u32, svg_width: u32, svg_height: u32,
sigma: u8 }` (serde tags `w`, `h`, `sw`, `sh`, `s`). -/
structure Blur where
  width : Nat
  height : Nat
  svg_width : Nat
  svg_height : Nat
  sigma : Nat
deriving DecidableEq, Repr

/-- `enum CachedImageOption` (serde tags `r` / `b`). -/
inductive CachedImageOption where
  | Resize (r : Resize)
  | Blur (b : Blur)
deriving DecidableEq, Repr

/-- `struct CachedImage { src: String, option: CachedImageOption }`. -/
structure CachedImage where
  src : List Nat
  option : CachedImageOption
deriving DecidableEq, Repr

/-- Machine-integer bounds of the Rust field types. -/
def CachedImageOption.Wf : CachedImageOption → Prop
  | .Resize r => r.width < 2 ^ 32 ∧ r.height < 2 ^ 32 ∧ r.quality < 2 ^ 8
  | .Blur b => b.width < 2 ^ 32 ∧ b.height < 2 ^ 32 ∧ b.svg_width < 2 ^ 32 ∧
      b.svg_height < 2 ^ 32 ∧ b.sigma < 2 ^ 8

/-- A legal descriptor: a real Rust `String` (bytes) with in-range integers. -/
def CachedImage.Wf (d : CachedImage) : Prop :=
  (∀ b ∈ d.src, b < 256) ∧ d.option.Wf

instance (o : CachedImageOption) : Decidable o.Wf := by
  cases o <;> (unfold CachedImageOption.Wf; infer_instance)

instance (d : CachedImage) : Decidable d.Wf := by
  unfold CachedImage.Wf; infer_instance

/-! ## serde_qs serialization of `CachedImage`

serde_qs writes struct fields in declaration order as `key=value` pairs
joined by `&`; nested maps use bracketed keys (`option[r][w]=…`), keys and
values are percent-encoded, integers via itoa.  For this concrete type the
output is fully determined. -/

/-- The `key=value` pairs of `serde_qs::to_string(&cached_image)`. -/
def qsPairsOf (d : CachedImage) : List (List Nat) :=
  match d.option with
  | .Resize r =>
    [str "src=" ++ pencode d.src,
     str "option[r][w]=" ++ natDec r.width,
     str "option[r][h]=" ++ natDec r.height,
     str "option[r][q]=" ++ natDec r.quality]
  | .Blur b =>
    [str "src=" ++ pencode d.src,
     str "option[b][w]=" ++ natDec b.width,
     str "option[b][h]=" ++ natDec b.height,
     str "option[b][sw]=" ++ natDec b.svg_width,
     str "option[b][sh]=" ++ natDec b.svg_height,
     str "option[b][s]=" ++ natDec b.sigma]

/-- `serde_qs::to_string(&cached_image)` as bytes. -/
def qsSerialize (d : CachedImage) : List Nat := joinSep 38 (qsPairsOf d)

/-! ## serde_qs deserialization into `CachedImage` -/

/-- Split a raw key into its percent-decoded bracket parts:
`option[r][w]` ↦ `["option", "r", "w"]`.  A group not terminated by `]` is a
parse error. -/
def parseKeyParts (k : List Nat) : Option (List (List Nat)) :=
  match bsplit 91 k with
  | [] => none
  | root :: groups =>
    match mapMO (fun g =>
        if g.getLast? = some 93 ∧ ¬93 ∈ g.dropLast then some g.dropLast else none) groups with
    | none => none
    | some parts => mapMO pdecode (root :: parts)

/-- Parse one `key=value` pair (a missing `=` yields an empty value). -/
def parsePair (p : List Nat) : Option (List (List Nat) × List Nat) :=
  let (k, v) := splitFirst 61 p
  match parseKeyParts k, pdecode (v.getD []) with
  | some key, some val => some (key, val)
  | _, _ => none

/-- First value stored under a composite key. -/
def lookupKV (kvs : List (List (List Nat) × List Nat)) (key : List (List Nat)) :
    Option (List Nat) :=
  match kvs with
  | [] => none
  | (k, v) :: t => if k = key then some v else lookupKV t key

/-- Reassemble a `CachedImage` from parsed pairs, mirroring the serde derive:
`src` is required; `option` must carry exactly one of the variant tags `r`/`b`
with all of that variant's integer fields in range; unknown keys are ignored. -/
def qsBuild (kvs : List (List (List Nat) × List Nat)) : Option CachedImage :=
  match lookupKV kvs [str "src"] with
  | none => none
  | some src =>
    let hasR := kvs.any (fun kv => kv.1.take 2 == [str "option", str "r"])
    let hasB := kvs.any (fun kv => kv.1.take 2 == [str "option", str "b"])
    if hasR ∧ hasB then none
    else if hasR then
      match parseU32 =<< lookupKV kvs [str "option", str "r", str "w"],
          parseU32 =<< lookupKV kvs [str "option", str "r", str "h"],
          parseU8 =<< lookupKV kvs [str "option", str "r", str "q"] with
      | some w, some h, some q => some ⟨src, .Resize ⟨w, h, q⟩⟩
      | _, _, _ => none
    else if hasB then
      match parseU32 =<< lookupKV kvs [str "option", str "b", str "w"],
          parseU32 =<< lookupKV kvs [str "option", str "b", str "h"],
          parseU32 =<< lookupKV kvs [str "option", str "b", str "sw"],
          parseU32 =<< lookupKV kvs [str "option", str "b", str "sh"],
          parseU8 =<< lookupKV kvs [str "option", str "b", str "s"] with
      | some w, some h, some sw, some sh, some s =>
        some ⟨src, .Blur ⟨w, h, sw, sh, s⟩⟩
      | _, _, _, _, _ => none
    else none

/-- `serde_qs::from_str::<CachedImage>` on the byte model. -/
def qsParse (s : List Nat) : Option CachedImage :=
  match mapMO parsePair (bsplit 38 s) with
  | none => none
  | some kvs => qsBuild kvs

-- The codec on a concrete descriptor (mirrors the repo's `url_encode` test).
example :
    qsSerialize ⟨str "test.jpg", .Resize ⟨100, 100, 75⟩⟩ =
      str "src=test.jpg&option[r][w]=100&option[r][h]=100&option[r][q]=75" := by decide
example :
    qsParse (str "src=test.jpg&option[r][w]=100&option[r][h]=100&option[r][q]=75") =
      some ⟨str "test.jpg", .Resize ⟨100, 100, 75⟩⟩ := by decide
example : qsParse (str "garbage") = none := by decide

/-! ## Structure lemmas for split/join -/

theorem bsplit_ne_nil (sep : Nat) (s : List Nat) : bsplit sep s ≠ [] := by
  match s with
  | [] => simp [bsplit]
  | b :: t =>
    rw [bsplit]
    split_ifs
    · simp
    · match h : bsplit sep t with
      | [] => simp
      | h' :: r => simp

theorem bsplit_append_sep (sep : Nat) (p q : List Nat) :
    bsplit sep (p ++ sep :: q) = bsplit sep p ++ bsplit sep q := by
  induction p with
  | nil => simp [bsplit]
  | cons b t ih =>
    rw [List.cons_append]
    by_cases hb : b = sep
    · subst hb
      simp only [bsplit, if_pos rfl, ih, List.cons_append]
      simp
    · simp only [bsplit, if_neg hb, ih]
      match h : bsplit sep t with
      | [] => exact absurd h (bsplit_ne_nil sep t)
      | x :: r => simp

theorem bsplit_sep_free {sep : Nat} {p : List Nat} (h : ∀ b ∈ p, b ≠ sep) :
    bsplit sep p = [p] := by
  induction p with
  | nil => rfl
  | cons b t ih =>
    have hb : b ≠ sep := h b (by simp)
    rw [bsplit, if_neg hb, ih (fun x hx => h x (by simp [hx]))]

theorem bsplit_mem_sep_free (sep : Nat) (s : List Nat) :
    ∀ seg ∈ bsplit sep s, ∀ b ∈ seg, b ≠ sep := by
  induction s with
  | nil =>
    intro seg hseg
    simp only [bsplit, List.mem_singleton] at hseg
    subst hseg
    simp
  | cons b t ih =>
    intro seg hseg
    by_cases hb : b = sep
    · subst hb
      rw [bsplit, if_pos rfl] at hseg
      rcases List.mem_cons.mp hseg with rfl | hseg
      · simp
      · exact ih seg hseg
    · rw [bsplit, if_neg hb] at hseg
      match hsp : bsplit sep t with
      | [] => exact absurd hsp (bsplit_ne_nil sep t)
      | x :: r =>
        rw [hsp] at hseg
        rcases List.mem_cons.mp hseg with rfl | hseg
        · intro y hy
          rcases List.mem_cons.mp hy with rfl | hy
          · exact hb
          · exact ih x (by rw [hsp]; simp) y hy
        · exact ih seg (by rw [hsp]; simp [hseg])

theorem joinSep_cons₂ (sep : Nat) (a b : List Nat) (l : List (List Nat)) :
    joinSep sep (a :: b :: l) = a ++ sep :: joinSep sep (b :: l) := rfl

theorem bsplit_joinSep {sep : Nat} : ∀ {l : List (List Nat)}, l ≠ [] →
    (∀ seg ∈ l, ∀ b ∈ seg, b ≠ sep) → bsplit sep (joinSep sep l) = l := by
  intro l
  induction l with
  | nil => intro h; exact absurd rfl h
  | cons a r ih =>
    intro _ hmem
    match r with
    | [] => exact bsplit_sep_free (hmem a (by simp))
    | b :: r' =>
      rw [joinSep_cons₂, bsplit_append_sep,
        bsplit_sep_free (hmem a (by simp)),
        ih (by simp) (fun seg hseg => hmem seg (by simp [hseg]))]
      rfl

theorem splitFirst_append {sep : Nat} {a b : List Nat} (h : ∀ x ∈ a, x ≠ sep) :
    splitFirst sep (a ++ sep :: b) = (a, some b) := by
  induction a with
  | nil => simp [splitFirst]
  | cons x t ih =>
    have hx : x ≠ sep := h x (by simp)
    have ihh := ih (fun y hy => h y (by simp [hy]))
    rw [List.cons_append, splitFirst, if_neg hx]
    simp [ihh]

theorem mapMO_cons {α β : Type} (f : α → Option β) (a : α) (l : List α)
    {b : β} {r : List β} (ha : f a = some b) (hl : mapMO f l = some r) :
    mapMO f (a :: l) = some (b :: r) := by
  rw [mapMO, ha, hl]

theorem lastMatch_append_some {α : Type} (p : α → Bool) (l1 l2 : List α) {i : Nat} {x : α}
    (h : lastMatch p l2 = some (i, x)) :
    lastMatch p (l1 ++ l2) = some (l1.length + i, x) := by
  induction l1 with
  | nil => simpa using h
  | cons a t ih =>
    rw [List.cons_append, lastMatch, ih]
    show some (t.length + i + 1, x) = some (t.length + 1 + i, x)
    simp only [Option.some.injEq, Prod.mk.injEq, and_true]
    omega

theorem lastMatch_append_none {α : Type} (p : α → Bool) (l1 l2 : List α)
    (h : lastMatch p l2 = none) :
    lastMatch p (l1 ++ l2) = lastMatch p l1 := by
  induction l1 with
  | nil => simpa using h
  | cons a t ih =>
    rw [List.cons_append, lastMatch, lastMatch, ih]

/-! ## serde_qs round-trip -/

theorem pdecode_of_digits {v : List Nat} (h : ∀ b ∈ v, 48 ≤ b ∧ b ≤ 57) :
    pdecode v = some v := by
  induction v with
  | nil => rfl
  | cons b t ih =>
    have hb := h b (by simp)
    rw [pdecode_cons_plain t (by omega) (by omega), ih (fun x hx => h x (by simp [hx]))]
    rfl

theorem parsePair_src {src : List Nat} (h : ∀ b ∈ src, b < 256) :
    parsePair (str "src=" ++ pencode src) = some ([str "src"], src) := by
  have heq : str "src=" ++ pencode src = str "src" ++ 61 :: pencode src := rfl
  rw [heq]
  unfold parsePair
  rw [splitFirst_append (by decide)]
  have h1 : parseKeyParts (str "src") = some [str "src"] := by decide
  simp only [h1, Option.getD_some, pdecode_pencode h]

theorem parsePair_key_num {K : List Nat} {P : List (List Nat)} (n : Nat)
    (hK : ∀ b ∈ K, b ≠ 61) (hP : parseKeyParts K = some P) :
    parsePair (K ++ 61 :: natDec n) = some (P, natDec n) := by
  unfold parsePair
  rw [splitFirst_append hK]
  simp only [hP, Option.getD_some, pdecode_of_digits (natDec_digits n)]

theorem qsBuild_resize (src : List Nat) (w h q : Nat)
    (hw : w < 2 ^ 32) (hh : h < 2 ^ 32) (hq : q < 2 ^ 8) :
    qsBuild [([str "src"], src),
      ([str "option", str "r", str "w"], natDec w),
      ([str "option", str "r", str "h"], natDec h),
      ([str "option", str "r", str "q"], natDec q)] = some ⟨src, .Resize ⟨w, h, q⟩⟩ := by
  show (match parseU32 (natDec w), parseU32 (natDec h), parseU8 (natDec q) with
      | some w', some h', some q' => some (⟨src, .Resize ⟨w', h', q'⟩⟩ : CachedImage)
      | _, _, _ => none) = some ⟨src, .Resize ⟨w, h, q⟩⟩
  rw [parseU32_natDec hw, parseU32_natDec hh, parseU8_natDec hq]

theorem qsBuild_blur (src : List Nat) (w h sw sh s : Nat)
    (hw : w < 2 ^ 32) (hh : h < 2 ^ 32) (hsw : sw < 2 ^ 32) (hsh : sh < 2 ^ 32)
    (hs : s < 2 ^ 8) :
    qsBuild [([str "src"], src),
      ([str "option", str "b", str "w"], natDec w),
      ([str "option", str "b", str "h"], natDec h),
      ([str "option", str "b", str "sw"], natDec sw),
      ([str "option", str "b", str "sh"], natDec sh),
      ([str "option", str "b", str "s"], natDec s)] =
      some ⟨src, .Blur ⟨w, h, sw, sh, s⟩⟩ := by
  show (match parseU32 (natDec w), parseU32 (natDec h), parseU32 (natDec sw),
        parseU32 (natDec sh), parseU8 (natDec s) with
      | some w', some h', some sw', some sh', some s' =>
        some (⟨src, .Blur ⟨w', h', sw', sh', s'⟩⟩ : CachedImage)
      | _, _, _, _, _ => none) = some ⟨src, .Blur ⟨w, h, sw, sh, s⟩⟩
  rw [parseU32_natDec hw, parseU32_natDec hh, parseU32_natDec hsw, parseU32_natDec hsh,
    parseU8_natDec hs]

theorem mem_joinSep {sep : Nat} : ∀ {l : List (List Nat)} {x : Nat}, x ∈ joinSep sep l →
    x = sep ∨ ∃ seg ∈ l, x ∈ seg := by
  intro l
  induction l with
  | nil => intro x hx; simp [joinSep] at hx
  | cons a r ih =>
    intro x hx
    match r with
    | [] =>
      right
      exact ⟨a, by simp, hx⟩
    | b :: r' =>
      rw [joinSep_cons₂] at hx
      rcases List.mem_append.mp hx with hx | hx
      · right
        exact ⟨a, by simp, hx⟩
      · rcases List.mem_cons.mp hx with rfl | hx
        · left; rfl
        · rcases ih hx with rfl | ⟨seg, hseg, hxx⟩
          · left; rfl
          · right; exact ⟨seg, by simp [hseg], hxx⟩

/-- Every byte of a serialized pair is ASCII below 123 and is neither `&` (38)
nor `?` (63). -/
theorem qsPairsOf_mem {d : CachedImage} (h : ∀ b ∈ d.src, b < 256) :
    ∀ p ∈ qsPairsOf d, ∀ x ∈ p, x < 123 ∧ x ≠ 63 ∧ x ≠ 38 := by
  have hpe : ∀ x ∈ pencode d.src, x < 123 ∧ x ≠ 63 ∧ x ≠ 38 := by
    intro x hx
    have := pencode_mem h x hx
    exact ⟨this.1, this.2.2.2.1, this.2.1⟩
  have hnum : ∀ n : Nat, ∀ x ∈ natDec n, x < 123 ∧ x ≠ 63 ∧ x ≠ 38 := by
    intro n x hx
    have := natDec_digits n x hx
    omega
  have happ : ∀ (k v : List Nat), (∀ x ∈ k, x < 123 ∧ x ≠ 63 ∧ x ≠ 38) →
      (∀ x ∈ v, x < 123 ∧ x ≠ 63 ∧ x ≠ 38) →
      ∀ x ∈ k ++ v, x < 123 ∧ x ≠ 63 ∧ x ≠ 38 := by
    intro k v hk hv x hx
    rcases List.mem_append.mp hx with hx | hx
    · exact hk x hx
    · exact hv x hx
  intro p hp
  match d with
  | ⟨src, CachedImageOption.Resize r⟩ =>
    simp only [qsPairsOf, List.mem_cons, List.not_mem_nil, or_false] at hp
    rcases hp with rfl | rfl | rfl | rfl
    · exact happ _ _ (by decide) hpe
    · exact happ _ _ (by decide) (hnum r.width)
    · exact happ _ _ (by decide) (hnum r.height)
    · exact happ _ _ (by decide) (hnum r.quality)
  | ⟨src, CachedImageOption.Blur b⟩ =>
    simp only [qsPairsOf, List.mem_cons, List.not_mem_nil, or_false] at hp
    rcases hp with rfl | rfl | rfl | rfl | rfl | rfl
    · exact happ _ _ (by decide) hpe
    · exact happ _ _ (by decide) (hnum b.width)
    · exact happ _ _ (by decide) (hnum b.height)
    · exact happ _ _ (by decide) (hnum b.svg_width)
    · exact happ _ _ (by decide) (hnum b.svg_height)
    · exact happ _ _ (by decide) (hnum b.sigma)

/-- Every byte of `serde_qs::to_string` output is ASCII below 123 and is not
`?` (63). -/
theorem qsSerialize_mem {d : CachedImage} (h : ∀ b ∈ d.src, b < 256) :
    ∀ x ∈ qsSerialize d, x < 123 ∧ x ≠ 63 := by
  intro x hx
  rcases mem_joinSep hx with rfl | ⟨seg, hseg, hxx⟩
  · omega
  · have := qsPairsOf_mem h seg hseg x hxx
    exact ⟨this.1, this.2.1⟩

/-- `decode(encode(d)) = d` for the query-string codec: parsing the serialized
form of any legal descriptor recovers it exactly. -/
theorem qsParse_qsSerialize {d : CachedImage} (hwf : d.Wf) :
    qsParse (qsSerialize d) = some d := by
  obtain ⟨hsrc, hopt⟩ := hwf
  have hpairs := qsPairsOf_mem hsrc
  have hsplit : bsplit 38 (qsSerialize d) = qsPairsOf d := by
    apply bsplit_joinSep
    · match d with
      | ⟨src, CachedImageOption.Resize r⟩ => simp [qsPairsOf]
      | ⟨src, CachedImageOption.Blur b⟩ => simp [qsPairsOf]
    · intro seg hseg x hx
      exact (hpairs seg hseg x hx).2.2
  match d with
  | ⟨src, CachedImageOption.Resize ⟨w, h, q⟩⟩ =>
    obtain ⟨hw, hh, hq⟩ := hopt
    have hp1 : parsePair (str "src=" ++ pencode src) = some ([str "src"], src) :=
      parsePair_src hsrc
    have hp2 : parsePair (str "option[r][w]=" ++ natDec w) =
        some ([str "option", str "r", str "w"], natDec w) := by
      rw [show str "option[r][w]=" ++ natDec w = str "option[r][w]" ++ 61 :: natDec w from rfl]
      exact parsePair_key_num w (by decide) (by decide)
    have hp3 : parsePair (str "option[r][h]=" ++ natDec h) =
        some ([str "option", str "r", str "h"], natDec h) := by
      rw [show str "option[r][h]=" ++ natDec h = str "option[r][h]" ++ 61 :: natDec h from rfl]
      exact parsePair_key_num h (by decide) (by decide)
    have hp4 : parsePair (str "option[r][q]=" ++ natDec q) =
        some ([str "option", str "r", str "q"], natDec q) := by
      rw [show str "option[r][q]=" ++ natDec q = str "option[r][q]" ++ 61 :: natDec q from rfl]
      exact parsePair_key_num q (by decide) (by decide)
    have hmap : mapMO parsePair
        [str "src=" ++ pencode src,
         str "option[r][w]=" ++ natDec w,
         str "option[r][h]=" ++ natDec h,
         str "option[r][q]=" ++ natDec q] =
        some [([str "src"], src),
          ([str "option", str "r", str "w"], natDec w),
          ([str "option", str "r", str "h"], natDec h),
          ([str "option", str "r", str "q"], natDec q)] :=
      mapMO_cons _ _ _ hp1 (mapMO_cons _ _ _ hp2 (mapMO_cons _ _ _ hp3
        (mapMO_cons _ _ _ hp4 (by rfl))))
    unfold qsParse
    rw [hsplit]
    rw [show qsPairsOf ⟨src, .Resize ⟨w, h, q⟩⟩ =
      [str "src=" ++ pencode src,
       str "option[r][w]=" ++ natDec w,
       str "option[r][h]=" ++ natDec h,
       str "option[r][q]=" ++ natDec q] from rfl]
    rw [hmap]
    exact qsBuild_resize src w h q hw hh hq
  | ⟨src, CachedImageOption.Blur ⟨w, h, sw, sh, s⟩⟩ =>
    obtain ⟨hw, hh, hsw, hsh, hs⟩ := hopt
    have hp1 : parsePair (str "src=" ++ pencode src) = some ([str "src"], src) :=
      parsePair_src hsrc
    have hp2 : parsePair (str "option[b][w]=" ++ natDec w) =
        some ([str "option", str "b", str "w"], natDec w) := by
      rw [show str "option[b][w]=" ++ natDec w = str "option[b][w]" ++ 61 :: natDec w from rfl]
      exact parsePair_key_num w (by decide) (by decide)
    have hp3 : parsePair (str "option[b][h]=" ++ natDec h) =
        some ([str "option", str "b", str "h"], natDec h) := by
      rw [show str "option[b][h]=" ++ natDec h = str "option[b][h]" ++ 61 :: natDec h from rfl]
      exact parsePair_key_num h (by decide) (by decide)
    have hp4 : parsePair (str "option[b][sw]=" ++ natDec sw) =
        some ([str "option", str "b", str "sw"], natDec sw) := by
      rw [show str "option[b][sw]=" ++ natDec sw =
        str "option[b][sw]" ++ 61 :: natDec sw from rfl]
      exact parsePair_key_num sw (by decide) (by decide)
    have hp5 : parsePair (str "option[b][sh]=" ++ natDec sh) =
        some ([str "option", str "b", str "sh"], natDec sh) := by
      rw [show str "option[b][sh]=" ++ natDec sh =
        str "option[b][sh]" ++ 61 :: natDec sh from rfl]
      exact parsePair_key_num sh (by decide) (by decide)
    have hp6 : parsePair (str "option[b][s]=" ++ natDec s) =
        some ([str "option", str "b", str "s"], natDec s) := by
      rw [show str "option[b][s]=" ++ natDec s = str "option[b][s]" ++ 61 :: natDec s from rfl]
      exact parsePair_key_num s (by decide) (by decide)
    have hmap : mapMO parsePair
        [str "src=" ++ pencode src,
         str "option[b][w]=" ++ natDec w,
         str "option[b][h]=" ++ natDec h,
         str "option[b][sw]=" ++ natDec sw,
         str "option[b][sh]=" ++ natDec sh,
         str "option[b][s]=" ++ natDec s] =
        some [([str "src"], src),
          ([str "option", str "b", str "w"], natDec w),
          ([str "option", str "b", str "h"], natDec h),
          ([str "option", str "b", str "sw"], natDec sw),
          ([str "option", str "b", str "sh"], natDec sh),
          ([str "option", str "b", str "s"], natDec s)] :=
      mapMO_cons _ _ _ hp1 (mapMO_cons _ _ _ hp2 (mapMO_cons _ _ _ hp3
        (mapMO_cons _ _ _ hp4 (mapMO_cons _ _ _ hp5 (mapMO_cons _ _ _ hp6 (by rfl))))))
    unfold qsParse
    rw [hsplit]
    rw [show qsPairsOf ⟨src, .Blur ⟨w, h, sw, sh, s⟩⟩ =
      [str "src=" ++ pencode src,
       str "option[b][w]=" ++ natDec w,
       str "option[b][h]=" ++ natDec h,
       str "option[b][sw]=" ++ natDec sw,
       str "option[b][sh]=" ++ natDec sh,
       str "option[b][s]=" ++ natDec s] from rfl]
    rw [hmap]
    exact qsBuild_blur src w h sw sh s hw hh hsw hsh hs

/-! ## Path construction (`path_from_segments`, `PathBuf::set_extension`) -/

/-- Rust `s.trim_start_matches('/').trim_end_matches('/')`. -/
def trimSlashes (s : List Nat) : List Nat :=
  (((s.dropWhile (fun b => b == 47)).reverse.dropWhile (fun b => b == 47)).reverse)

/-- `fn path_from_segments(segments: Vec<&str>) -> PathBuf`: trim `/` from both
ends of every segment, drop empties, collect into a `PathBuf` (which joins the
pushed components with `/`). -/
def path_from_segments (segments : List (List Nat)) : List Nat :=
  joinSep 47 ((segments.map trimSlashes).filter (fun s => !s.isEmpty))

/-- `Path::file_stem` of a file name: the part before the last `.`, unless the
only `.` is leading (hidden files keep their whole name). -/
def fileStem (g : List Nat) : List Nat :=
  match lastMatch (fun b => b == 46) g with
  | none => g
  | some (i, _) => if i = 0 then g else g.take i

/-- A path segment that `Components` keeps when scanning from the back:
neither empty nor the `.` (CurDir) segment. -/
def goodSeg (g : List Nat) : Bool := !(g == [] || g == [46])

/-- `PathBuf::set_extension(ext)`: locate the last normal component (skipping
empty and `.` segments from the back, as `Components` does), return the path
unchanged if there is none or it is `..`, otherwise truncate the buffer right
after that component's stem and append `.ext`. -/
def set_extension (s ext : List Nat) : List Nat :=
  match lastMatch goodSeg (bsplit 47 s) with
  | none => s
  | some (i, g) =>
    if g = [46, 46] then s
    else
      joinSep 47 ((bsplit 47 s).take i ++
        [if ext.isEmpty then fileStem g else fileStem g ++ 46 :: ext])

-- `set_extension` sanity: replaces, appends, no-ops exactly like `PathBuf`.
example : set_extension (str "cache/image/T/img.png") (str "webp") =
    str "cache/image/T/img.webp" := by decide
example : set_extension (str "cache/image/T/img") (str "webp") =
    str "cache/image/T/img.webp" := by decide
example : set_extension (str "cache/image/T/..") (str "webp") =
    str "cache/image/T/.." := by decide
example : set_extension (str "cache/image/T/.") (str "webp") =
    str "cache/image/T.webp" := by decide
example : set_extension (str "cache/image/T") (str "svg") =
    str "cache/image/T.svg" := by decide
example : set_extension (str "a/.bashrc") (str "svg") = str "a/.bashrc.svg" := by decide

/-! ## The `CachedImage` codec methods (`src/optimizer.rs`) -/

/-- `CachedImage::get_url_encoded`: `format!("{}?{}", "/cache/image", params)`
with `params = serde_qs::to_string(&self)`. -/
def CachedImage.get_url_encoded (d : CachedImage) : List Nat :=
  str "/cache/image" ++ 63 :: qsSerialize d

/-- `CachedImage::get_file_path`: base64-encode the serde_qs form, build
`cache/image/<encoded>/<src>` via `path_from_segments`, then force the
extension to `webp` for Resize and `svg` for Blur. -/
def CachedImage.get_file_path (d : CachedImage) : List Nat :=
  let encode := b64encode (qsSerialize d)
  let path := path_from_segments [str "cache/image", encode, d.src]
  match d.option with
  | .Resize _ => set_extension path (str "webp")
  | .Blur _ => set_extension path (str "svg")

/-- `CachedImage::from_file_path`: split the path on `/`, keep the segments
that base64-decode to UTF-8 text, return the first that parses with serde_qs. -/
def CachedImage.from_file_path (path : List Nat) : Option CachedImage :=
  ((bsplit 47 path).filterMap
    (fun s => (b64decode s).bind string_from_utf8)).findSome? qsParse

/-- `CachedImage::from_url_encoded`: take the piece after the last `?`
(`url.split('?').filter(|s| *s != "?").last().unwrap_or(url)`), then
`serde_qs::from_str`. -/
def CachedImage.from_url_encoded (url : List Nat) : Option CachedImage :=
  qsParse (((bsplit 63 url).filter (fun s => !(s == [63]))).getLastD url)

-- Mirrors the repo's `url_encode` test.
example :
    CachedImage.from_url_encoded
      (CachedImage.get_url_encoded ⟨str "test.jpg", .Resize ⟨100, 100, 75⟩⟩) =
      some ⟨str "test.jpg", .Resize ⟨100, 100, 75⟩⟩ := by decide

/-! ## Facts about the encoded token and the constructed path -/

theorem lastMatch_eq_none_iff {α : Type} (p : α → Bool) (l : List α) :
    lastMatch p l = none ↔ l.any p = false := by
  induction l with
  | nil => simp [lastMatch]
  | cons a t ih =>
    rw [lastMatch]
    match h : lastMatch p t with
    | some (i, x) =>
      simp only [reduceCtorEq, false_iff, List.any_cons]
      intro hc
      rw [Bool.or_eq_false_iff] at hc
      rw [← ih] at hc
      exact absurd h (by simp [hc.2])
    | none =>
      by_cases hp : p a
      · simp [hp]
      · simp only [Bool.not_eq_true] at hp
        simp [hp, ih.mp h]

theorem lastMatch_prop {α : Type} {p : α → Bool} {l : List α} {i : Nat} {x : α}
    (h : lastMatch p l = some (i, x)) : p x = true := by
  induction l generalizing i with
  | nil => exact absurd h (by simp [lastMatch])
  | cons a t ih =>
    rw [lastMatch] at h
    match ht : lastMatch p t with
    | some (j, y) =>
      rw [ht] at h
      injection h with h
      injection h with h1 h2
      subst h2
      exact ih ht
    | none =>
      rw [ht] at h
      by_cases hp : p a
      · rw [if_pos hp] at h
        injection h with h
        injection h with h1 h2
        subst h2
        exact hp
      · rw [if_neg hp] at h
        exact absurd h (by simp)

theorem lastMatch_mem {α : Type} {p : α → Bool} {l : List α} {i : Nat} {x : α}
    (h : lastMatch p l = some (i, x)) : x ∈ l := by
  induction l generalizing i with
  | nil => exact absurd h (by simp [lastMatch])
  | cons a t ih =>
    rw [lastMatch] at h
    match ht : lastMatch p t with
    | some (j, y) =>
      rw [ht] at h
      injection h with h
      injection h with h1 h2
      subst h2
      exact List.mem_cons_of_mem a (ih ht)
    | none =>
      rw [ht] at h
      by_cases hp : p a
      · rw [if_pos hp] at h
        injection h with h
        injection h with h1 h2
        subst h2
        simp
      · rw [if_neg hp] at h
        exact absurd h (by simp)

theorem trimSlashes_of_no47 {s : List Nat} (h : ∀ b ∈ s, b ≠ 47) :
    trimSlashes s = s := by
  have hdrop : ∀ t : List Nat, (∀ b ∈ t, b ≠ 47) → t.dropWhile (fun b => b == 47) = t := by
    intro t ht
    match t with
    | [] => rfl
    | b :: t' =>
      rw [List.dropWhile_cons, if_neg (by simp [ht b (by simp)])]
  unfold trimSlashes
  rw [hdrop s h, hdrop s.reverse (fun b hb => h b (List.mem_reverse.mp hb)),
    List.reverse_reverse]

theorem qsSerialize_head (d : CachedImage) : ∃ t, qsSerialize d = 115 :: t := by
  match d with
  | ⟨src, CachedImageOption.Resize r⟩ =>
    exact ⟨_, rfl⟩
  | ⟨src, CachedImageOption.Blur b⟩ =>
    exact ⟨_, rfl⟩

theorem qsSerialize_ne_nil (d : CachedImage) : qsSerialize d ≠ [] := by
  obtain ⟨t, ht⟩ := qsSerialize_head d
  simp [ht]

theorem qsSerialize_lt_256 {d : CachedImage} (h : ∀ b ∈ d.src, b < 256) :
    ∀ x ∈ qsSerialize d, x < 256 := by
  intro x hx
  have := qsSerialize_mem h x hx
  omega

/-- The encoded token: facts needed about `b64encode (qsSerialize d)`. -/
theorem encToken_facts {d : CachedImage} (h : ∀ b ∈ d.src, b < 256) :
    (∀ x ∈ b64encode (qsSerialize d), x ≠ 47 ∧ x ≠ 46) ∧
      b64encode (qsSerialize d) ≠ [] := by
  constructor
  · exact b64encode_mem (fun x hx => qsSerialize_mem h x hx)
  · exact b64encode_ne_nil (qsSerialize_ne_nil d)

/-- Splitting `cache/image/<ENC><tail>` where the token has no `/` and the
tail is empty or starts with `/`. -/
theorem bsplit_path (ENC tail : List Nat) :
    bsplit 47 (str "cache/image" ++ 47 :: (ENC ++ tail)) =
      str "cache" :: str "image" :: (bsplit 47 (ENC ++ tail)) := by
  rw [show str "cache/image" ++ 47 :: (ENC ++ tail) =
    str "cache" ++ 47 :: (str "image" ++ 47 :: (ENC ++ tail)) from rfl]
  rw [bsplit_append_sep, bsplit_append_sep,
    bsplit_sep_free (by decide), bsplit_sep_free (by decide)]
  rfl

theorem bsplit_enc_tail {ENC tail : List Nat} (henc : ∀ x ∈ ENC, x ≠ 47)
    (htail : tail = [] ∨ ∃ r, tail = 47 :: r) :
    bsplit 47 (ENC ++ tail) = ENC :: (if tail = [] then [] else bsplit 47 tail.tail) := by
  rcases htail with rfl | ⟨r, rfl⟩
  · rw [List.append_nil, bsplit_sep_free henc]
    rfl
  · rw [bsplit_append_sep, bsplit_sep_free henc]
    simp

/-- Once the split path starts `cache :: image :: ENC :: …`, `from_file_path`
recovers the descriptor: the two literal segments are not valid base64, the
token decodes to the (ASCII) query string, and serde_qs parses it back. -/
theorem from_file_path_hit {d : CachedImage} (hwf : d.Wf) (rest : List (List Nat))
    (hsegs : bsplit 47 (CachedImage.get_file_path d) =
      str "cache" :: str "image" :: b64encode (qsSerialize d) :: rest) :
    CachedImage.from_file_path (CachedImage.get_file_path d) = some d := by
  obtain ⟨hsrc, hopt⟩ := hwf
  unfold CachedImage.from_file_path
  rw [hsegs]
  have hdec : (b64decode (b64encode (qsSerialize d))).bind string_from_utf8 =
      some (qsSerialize d) := by
    rw [b64decode_b64encode (qsSerialize_lt_256 hsrc)]
    exact string_from_utf8_of_ascii (fun x hx => by have := qsSerialize_mem hsrc x hx; omega)
  rw [@List.filterMap_cons_none _ _ (fun s => (b64decode s).bind string_from_utf8)
    (str "cache") (str "image" :: b64encode (qsSerialize d) :: rest) (by decide)]
  rw [@List.filterMap_cons_none _ _ (fun s => (b64decode s).bind string_from_utf8)
    (str "image") (b64encode (qsSerialize d) :: rest) (by decide)]
  rw [@List.filterMap_cons_some _ _ (fun s => (b64decode s).bind string_from_utf8)
    (b64encode (qsSerialize d)) rest _ hdec]
  rw [List.findSome?_cons, qsParse_qsSerialize ⟨hsrc, hopt⟩]

/-- Extension chosen by `get_file_path` per variant. -/
def extBytes : CachedImageOption → List Nat
  | .Resize _ => str "webp"
  | .Blur _ => str "svg"

theorem get_file_path_def (d : CachedImage) :
    CachedImage.get_file_path d =
      set_extension (path_from_segments [str "cache/image", b64encode (qsSerialize d), d.src])
        (extBytes d.option) := by
  match d with
  | ⟨s, CachedImageOption.Resize r⟩ => rfl
  | ⟨s, CachedImageOption.Blur b⟩ => rfl

theorem joinSep_cons_ne {sep : Nat} (a : List Nat) {l : List (List Nat)} (h : l ≠ []) :
    joinSep sep (a :: l) = a ++ sep :: joinSep sep l := by
  match l, h with
  | b :: r, _ => rfl

/-- Evaluate `path_from_segments ["cache/image", ENC, src]`. -/
theorem pfs_eval {d : CachedImage} (hsrc : ∀ b ∈ d.src, b < 256) :
    path_from_segments [str "cache/image", b64encode (qsSerialize d), d.src] =
      str "cache/image" ++ 47 ::
        (b64encode (qsSerialize d) ++
          (if trimSlashes d.src = [] then [] else 47 :: trimSlashes d.src)) := by
  obtain ⟨henc, hne⟩ := encToken_facts hsrc
  have htrimE : trimSlashes (b64encode (qsSerialize d)) = b64encode (qsSerialize d) :=
    trimSlashes_of_no47 (fun x hx => (henc x hx).1)
  have hEempty : (b64encode (qsSerialize d)).isEmpty = false := by
    match hE : b64encode (qsSerialize d), hne with
    | e :: et, _ => rfl
  unfold path_from_segments
  rw [List.map_cons, List.map_cons, List.map_cons, List.map_nil,
    show trimSlashes (str "cache/image") = str "cache/image" from by decide, htrimE]
  rw [List.filter_cons, List.filter_cons, List.filter_cons, List.filter_nil]
  rw [show (!(str "cache/image").isEmpty) = true from by decide]
  rw [hEempty]
  by_cases htr : trimSlashes d.src = []
  · rw [htr]
    simp only [List.isEmpty_nil, Bool.not_true, Bool.not_false, Bool.false_eq_true,
      if_false, if_true, eq_self_iff_true, List.append_nil]
    rw [joinSep_cons_ne _ (by simp)]
    rfl
  · have hsne : (trimSlashes d.src).isEmpty = false := by
      match ht : trimSlashes d.src, htr with
      | e :: et, _ => rfl
    rw [hsne]
    simp only [Bool.not_false, eq_self_iff_true, if_true, if_neg htr]
    rw [joinSep_cons_ne _ (by simp), joinSep_cons_ne _ (by simp)]
    rfl

theorem goodSeg_of {g : List Nat} (hne : g ≠ []) (h46 : g ≠ [46]) : goodSeg g = true := by
  unfold goodSeg
  simp [hne, h46]

theorem fileStem_of_no46 {g : List Nat} (h : ∀ x ∈ g, x ≠ 46) : fileStem g = g := by
  unfold fileStem
  have hnone : lastMatch (fun b => b == 46) g = none := by
    rw [lastMatch_eq_none_iff]
    rw [List.any_eq_false]
    intro x hx
    simp [h x hx]
  rw [hnone]

theorem extBytes_isEmpty (o : CachedImageOption) : (extBytes o).isEmpty = false := by
  cases o <;> rfl

theorem lastMatch_cie {ENC : List Nat} (hE : goodSeg ENC = true) :
    lastMatch goodSeg [str "cache", str "image", ENC] = some (2, ENC) := by
  simp [lastMatch, hE]

theorem take_cons3 {α : Type} (a b c : α) (l : List α) (i : Nat) :
    (a :: b :: c :: l).take (3 + i) = a :: b :: c :: l.take i := by
  rw [show 3 + i = i + 3 from by omega]
  rfl

theorem bsplit_path_full {ENC : List Nat} (tail47 : List Nat)
    (henc : ∀ x ∈ ENC, x ≠ 47) :
    bsplit 47 (str "cache/image" ++ 47 :: (ENC ++ 47 :: tail47)) =
      str "cache" :: str "image" :: ENC :: bsplit 47 tail47 := by
  rw [show str "cache/image" ++ 47 :: (ENC ++ 47 :: tail47) =
    str "cache" ++ 47 :: (str "image" ++ 47 :: (ENC ++ 47 :: tail47)) from rfl]
  rw [bsplit_append_sep, bsplit_append_sep, bsplit_append_sep,
    bsplit_sep_free (by decide), bsplit_sep_free (by decide), bsplit_sep_free henc]
  rfl

theorem bsplit_path_token {ENC : List Nat} (henc : ∀ x ∈ ENC, x ≠ 47) :
    bsplit 47 (str "cache/image" ++ 47 :: ENC) =
      [str "cache", str "image", ENC] := by
  rw [show str "cache/image" ++ 47 :: ENC =
    str "cache" ++ 47 :: (str "image" ++ 47 :: ENC) from rfl]
  rw [bsplit_append_sep, bsplit_append_sep,
    bsplit_sep_free (by decide), bsplit_sep_free (by decide), bsplit_sep_free henc]
  rfl

/-- `get_file_path` when the source's last normal component is `..`:
`set_extension` is a no-op and the raw joined path is returned. -/
theorem gfp_eval_dotdot {d : CachedImage} (hsrc : ∀ b ∈ d.src, b < 256) {i : Nat}
    (hlm : lastMatch goodSeg (bsplit 47 (trimSlashes d.src)) = some (i, [46, 46])) :
    CachedImage.get_file_path d =
      str "cache/image" ++ 47 :: (b64encode (qsSerialize d) ++ 47 :: trimSlashes d.src) := by
  obtain ⟨henc, hne⟩ := encToken_facts hsrc
  have htr : trimSlashes d.src ≠ [] := by
    intro h
    rw [h, show lastMatch goodSeg (bsplit 47 []) = none from by decide] at hlm
    exact absurd hlm (by simp)
  rw [get_file_path_def, pfs_eval hsrc, if_neg htr]
  unfold set_extension
  rw [bsplit_path_full _ (fun x hx => (henc x hx).1)]
  rw [show str "cache" :: str "image" :: b64encode (qsSerialize d) ::
      bsplit 47 (trimSlashes d.src) =
    [str "cache", str "image", b64encode (qsSerialize d)] ++
      bsplit 47 (trimSlashes d.src) from rfl]
  rw [lastMatch_append_some _ _ _ hlm]
  rfl

/-- `get_file_path` when the source's last normal component `g` is a real file
name: the buffer is truncated after `g`'s stem and `.ext` appended. -/
theorem gfp_eval_replace {d : CachedImage} (hsrc : ∀ b ∈ d.src, b < 256) {i : Nat}
    {g : List Nat}
    (hlm : lastMatch goodSeg (bsplit 47 (trimSlashes d.src)) = some (i, g))
    (hg : g ≠ [46, 46]) :
    CachedImage.get_file_path d =
      str "cache/image" ++ 47 :: (b64encode (qsSerialize d) ++ 47 ::
        joinSep 47 ((bsplit 47 (trimSlashes d.src)).take i ++
          [fileStem g ++ 46 :: extBytes d.option])) := by
  obtain ⟨henc, hne⟩ := encToken_facts hsrc
  have htr : trimSlashes d.src ≠ [] := by
    intro h
    rw [h, show lastMatch goodSeg (bsplit 47 []) = none from by decide] at hlm
    exact absurd hlm (by simp)
  rw [get_file_path_def, pfs_eval hsrc, if_neg htr]
  unfold set_extension
  rw [bsplit_path_full _ (fun x hx => (henc x hx).1)]
  rw [show str "cache" :: str "image" :: b64encode (qsSerialize d) ::
      bsplit 47 (trimSlashes d.src) =
    [str "cache", str "image", b64encode (qsSerialize d)] ++
      bsplit 47 (trimSlashes d.src) from rfl]
  rw [lastMatch_append_some _ _ _ hlm]
  show (if g = [46, 46] then _ else _) = _
  rw [if_neg hg]
  rw [show (extBytes d.option).isEmpty = false from extBytes_isEmpty _]
  simp only [Bool.false_eq_true, if_false]
  rw [show ([str "cache", str "image", b64encode (qsSerialize d)] ++
      bsplit 47 (trimSlashes d.src)) =
    str "cache" :: str "image" :: b64encode (qsSerialize d) ::
      bsplit 47 (trimSlashes d.src) from rfl]
  rw [show ([str "cache", str "image", b64encode (qsSerialize d)] :
    List (List Nat)).length = 3 from rfl]
  rw [take_cons3, List.cons_append, List.cons_append, List.cons_append]
  rw [joinSep_cons_ne _ (by simp), joinSep_cons_ne _ (by simp),
    joinSep_cons_ne _ (by simp)]
  rfl

/-- `get_file_path` when the source has no normal component (it trims to
nothing or only `.`/empty segments): the extension lands on the token itself. -/
theorem gfp_eval_token {d : CachedImage} (hsrc : ∀ b ∈ d.src, b < 256)
    (hlm : lastMatch goodSeg (bsplit 47 (trimSlashes d.src)) = none) :
    CachedImage.get_file_path d =
      str "cache/image" ++ 47 :: (b64encode (qsSerialize d) ++ 46 :: extBytes d.option) := by
  obtain ⟨henc, hne⟩ := encToken_facts hsrc
  have hE46 : ∀ x ∈ b64encode (qsSerialize d), x ≠ 46 := fun x hx => (henc x hx).2
  have hEgood : goodSeg (b64encode (qsSerialize d)) = true :=
    goodSeg_of hne (fun h => hE46 46 (by rw [h]; simp) rfl)
  have hEne2 : b64encode (qsSerialize d) ≠ [46, 46] := by
    intro h
    exact hE46 46 (by rw [h]; simp) rfl
  have hstem : fileStem (b64encode (qsSerialize d)) = b64encode (qsSerialize d) :=
    fileStem_of_no46 hE46
  rw [get_file_path_def, pfs_eval hsrc]
  by_cases htr : trimSlashes d.src = []
  · rw [if_pos htr, List.append_nil]
    unfold set_extension
    rw [bsplit_path_token (fun x hx => (henc x hx).1)]
    rw [lastMatch_cie hEgood]
    show (if b64encode (qsSerialize d) = [46, 46] then _ else _) = _
    rw [if_neg hEne2]
    rw [show (extBytes d.option).isEmpty = false from extBytes_isEmpty _]
    simp only [Bool.false_eq_true, if_false]
    rw [hstem]
    rfl
  · rw [if_neg htr]
    unfold set_extension
    rw [bsplit_path_full _ (fun x hx => (henc x hx).1)]
    rw [show str "cache" :: str "image" :: b64encode (qsSerialize d) ::
        bsplit 47 (trimSlashes d.src) =
      [str "cache", str "image", b64encode (qsSerialize d)] ++
        bsplit 47 (trimSlashes d.src) from rfl]
    rw [lastMatch_append_none _ _ _ hlm]
    rw [lastMatch_cie hEgood]
    show (if b64encode (qsSerialize d) = [46, 46] then _ else _) = _
    rw [if_neg hEne2]
    rw [show (extBytes d.option).isEmpty = false from extBytes_isEmpty _]
    simp only [Bool.false_eq_true, if_false]
    rw [hstem]
    rfl

/-! ## Consequences: path round-trip, injectivity, extension selection -/

/-- Path round-trip: whenever the trimmed source keeps at least one normal
(non-empty, non-`.`) segment, decoding the resolved path recovers the
descriptor. -/
theorem from_file_path_get_file_path {d : CachedImage} (hwf : d.Wf)
    (hgood : (bsplit 47 (trimSlashes d.src)).any goodSeg = true) :
    CachedImage.from_file_path (CachedImage.get_file_path d) = some d := by
  obtain ⟨hsrc, hopt⟩ := hwf
  obtain ⟨henc, hne⟩ := encToken_facts hsrc
  obtain ⟨i, g, hlm⟩ :
      ∃ i g, lastMatch goodSeg (bsplit 47 (trimSlashes d.src)) = some (i, g) := by
    match h : lastMatch goodSeg (bsplit 47 (trimSlashes d.src)) with
    | some (i, g) => exact ⟨i, g, rfl⟩
    | none =>
      rw [lastMatch_eq_none_iff] at h
      rw [h] at hgood
      exact absurd hgood (by simp)
  by_cases hg : g = [46, 46]
  · subst hg
    exact from_file_path_hit ⟨hsrc, hopt⟩ _
      (by rw [gfp_eval_dotdot hsrc hlm, bsplit_path_full _ (fun x hx => (henc x hx).1)])
  · exact from_file_path_hit ⟨hsrc, hopt⟩ _
      (by rw [gfp_eval_replace hsrc hlm hg, bsplit_path_full _ (fun x hx => (henc x hx).1)])

/-- The canonical shape of every resolved path: the fixed prefix, the base64
token, then a remainder beginning with `.` or `/`. -/
theorem get_file_path_shape {d : CachedImage} (hwf : d.Wf) :
    ∃ r x, CachedImage.get_file_path d =
        str "cache/image" ++ 47 :: (b64encode (qsSerialize d) ++ r) ∧
      (r = 46 :: x ∨ r = 47 :: x) := by
  obtain ⟨hsrc, -⟩ := hwf
  match hlm : lastMatch goodSeg (bsplit 47 (trimSlashes d.src)) with
  | none =>
    exact ⟨46 :: extBytes d.option, extBytes d.option, gfp_eval_token hsrc hlm, Or.inl rfl⟩
  | some (i, g) =>
    by_cases hg : g = [46, 46]
    · subst hg
      exact ⟨47 :: trimSlashes d.src, trimSlashes d.src, gfp_eval_dotdot hsrc hlm, Or.inr rfl⟩
    · exact ⟨47 :: joinSep 47 ((bsplit 47 (trimSlashes d.src)).take i ++
          [fileStem g ++ 46 :: extBytes d.option]),
        joinSep 47 ((bsplit 47 (trimSlashes d.src)).take i ++
          [fileStem g ++ 46 :: extBytes d.option]),
        gfp_eval_replace hsrc hlm hg, Or.inr rfl⟩

/-- If two token-prefixed strings agree and neither token contains `.` or `/`
while both remainders start with one of them, the tokens agree. -/
theorem token_prefix_eq {E1 E2 r1 r2 : List Nat} (h : E1 ++ r1 = E2 ++ r2)
    (h1 : ∀ b ∈ E1, b ≠ 47 ∧ b ≠ 46) (h2 : ∀ b ∈ E2, b ≠ 47 ∧ b ≠ 46)
    (hr1 : ∃ x, r1 = 46 :: x ∨ r1 = 47 :: x)
    (hr2 : ∃ x, r2 = 46 :: x ∨ r2 = 47 :: x) : E1 = E2 := by
  induction E1 generalizing E2 with
  | nil =>
    match E2 with
    | [] => rfl
    | b :: t2 =>
      exfalso
      rw [List.nil_append] at h
      obtain ⟨x, hx | hx⟩ := hr1 <;>
        · rw [hx] at h
          injection h with hb _
          have := h2 b (by simp)
          omega
  | cons a t1 ih =>
    match E2 with
    | [] =>
      exfalso
      rw [List.nil_append] at h
      obtain ⟨x, hx | hx⟩ := hr2 <;>
        · rw [hx] at h
          injection h with hb _
          have := h1 a (by simp)
          omega
    | b :: t2 =>
      rw [List.cons_append, List.cons_append] at h
      injection h with hab h
      subst hab
      have := ih h (fun y hy => h1 y (by simp [hy])) (fun y hy => h2 y (by simp [hy]))
      rw [this]

theorem qsSerialize_inj {d1 d2 : CachedImage} (h1 : d1.Wf) (h2 : d2.Wf)
    (h : qsSerialize d1 = qsSerialize d2) : d1 = d2 := by
  have hq := qsParse_qsSerialize h1
  rw [h, qsParse_qsSerialize h2] at hq
  injection hq with hq
  exact hq.symm

/-- Content-addressing: distinct legal descriptors resolve to distinct paths. -/
theorem get_file_path_inj {d1 d2 : CachedImage} (h1 : d1.Wf) (h2 : d2.Wf)
    (hne : d1 ≠ d2) :
    CachedImage.get_file_path d1 ≠ CachedImage.get_file_path d2 := by
  intro heq
  obtain ⟨r1, x1, hp1, hx1⟩ := get_file_path_shape h1
  obtain ⟨r2, x2, hp2, hx2⟩ := get_file_path_shape h2
  rw [hp1, hp2] at heq
  have heq2 : b64encode (qsSerialize d1) ++ r1 = b64encode (qsSerialize d2) ++ r2 := by
    have := List.append_cancel_left heq
    injection this
  have hE : b64encode (qsSerialize d1) = b64encode (qsSerialize d2) :=
    token_prefix_eq heq2
      (b64encode_mem (fun x hx => qsSerialize_mem h1.1 x hx))
      (b64encode_mem (fun x hx => qsSerialize_mem h2.1 x hx))
      ⟨x1, hx1⟩ ⟨x2, hx2⟩
  have hqs : qsSerialize d1 = qsSerialize d2 := by
    have hd1 := b64decode_b64encode (qsSerialize_lt_256 h1.1)
    rw [hE, b64decode_b64encode (qsSerialize_lt_256 h2.1)] at hd1
    injection hd1 with hd1
    exact hd1.symm
  exact hne (qsSerialize_inj h1 h2 hqs)

theorem joinSep_concat_last (sep : Nat) (l : List (List Nat)) (a : List Nat) :
    ∃ p, joinSep sep (l ++ [a]) = p ++ a := by
  induction l with
  | nil => exact ⟨[], rfl⟩
  | cons x l' ih =>
    obtain ⟨p, hp⟩ := ih
    refine ⟨x ++ sep :: p, ?_⟩
    rw [List.cons_append, joinSep_cons_ne _ (by simp), hp]
    simp

/-- Extension selection: unless the source's last normal component is `..`
(where `set_extension` is a no-op), the resolved path ends in `.webp`/`.svg`. -/
theorem get_file_path_ext_suffix {d : CachedImage} (hwf : d.Wf)
    (hdd : ∀ i g, lastMatch goodSeg (bsplit 47 (trimSlashes d.src)) = some (i, g) →
      g ≠ [46, 46]) :
    (46 :: extBytes d.option) <:+ CachedImage.get_file_path d := by
  obtain ⟨hsrc, -⟩ := hwf
  match hlm : lastMatch goodSeg (bsplit 47 (trimSlashes d.src)) with
  | none =>
    rw [gfp_eval_token hsrc hlm]
    exact ⟨str "cache/image" ++ 47 :: b64encode (qsSerialize d), by simp⟩
  | some (i, g) =>
    have hg := hdd i g hlm
    rw [gfp_eval_replace hsrc hlm hg]
    obtain ⟨p, hp⟩ := joinSep_concat_last 47
      ((bsplit 47 (trimSlashes d.src)).take i) (fileStem g ++ 46 :: extBytes d.option)
    rw [hp, show p ++ (fileStem g ++ 46 :: extBytes d.option) =
      (p ++ fileStem g) ++ 46 :: extBytes d.option from by simp]
    exact ⟨str "cache/image" ++ 47 :: (b64encode (qsSerialize d) ++ 47 :: (p ++ fileStem g)),
      by simp⟩

/-! ## Last-segment analysis (extension replacement, C10) -/

/-- Last `/`-separated segment of a byte string. -/
def lastSegment (s : List Nat) : List Nat := (bsplit 47 s).getLastD []

theorem getLastD_mem {α : Type} : ∀ {l : List α} (d : α), l ≠ [] → l.getLastD d ∈ l := by
  intro l
  induction l with
  | nil => intro d h; exact absurd rfl h
  | cons a t ih =>
    intro d _
    rw [List.getLastD_cons]
    match t with
    | [] => simp [List.getLastD]
    | b :: t' => exact List.mem_cons_of_mem a (ih a (by simp))

/-- Appending a separator-free suffix extends the final segment. -/
theorem bsplit_append_no_sep {sep : Nat} : ∀ (p : List Nat) {q : List Nat},
    (∀ b ∈ q, b ≠ sep) →
    bsplit sep (p ++ q) = (bsplit sep p).dropLast ++ [(bsplit sep p).getLastD [] ++ q] := by
  intro p
  induction p with
  | nil =>
    intro q hq
    rw [List.nil_append, bsplit_sep_free hq]
    rfl
  | cons b t ih =>
    intro q hq
    rw [List.cons_append]
    by_cases hb : b = sep
    · subst hb
      rw [bsplit, if_pos rfl, ih hq, bsplit, if_pos rfl]
      match hX : bsplit b t with
      | [] => exact absurd hX (bsplit_ne_nil b t)
      | x :: r =>
        rw [List.getLastD_cons, List.getLastD_cons]
        match r with
        | [] => rfl
        | r0 :: r1 => rfl
    · rw [bsplit, if_neg hb, ih hq, bsplit, if_neg hb]
      match hX : bsplit sep t with
      | [] => exact absurd hX (bsplit_ne_nil sep t)
      | x :: r =>
        match r with
        | [] => rfl
        | r0 :: r1 =>
          simp only [List.dropLast_cons₂, List.getLastD_cons, List.cons_append]

theorem trimSlashes_of_ends {s : List Nat} (hh : s.head? ≠ some 47)
    (hl : s.getLast? ≠ some 47) : trimSlashes s = s := by
  unfold trimSlashes
  have hdrop : s.dropWhile (fun b => b == 47) = s := by
    match s, hh with
    | [], _ => rfl
    | b :: t, hh =>
      rw [List.dropWhile_cons, if_neg]
      simp only [List.head?_cons, ne_eq, Option.some.injEq] at hh
      simp [hh]
  have hdrop2 : s.reverse.dropWhile (fun b => b == 47) = s.reverse := by
    match hs : s.reverse with
    | [] => rfl
    | b :: t =>
      rw [List.dropWhile_cons, if_neg]
      have hb : s.getLast? = some b := by
        rw [← List.head?_reverse, hs]
        rfl
      simp only [hb, ne_eq, Option.some.injEq] at hl
      simp [hl]
  rw [hdrop, hdrop2, List.reverse_reverse]

theorem getLastD_concat {α : Type} (l : List α) (a : α) (d : α) :
    (l ++ [a]).getLastD d = a := by
  rw [List.getLastD_eq_getLast?, List.getLast?_concat]
  rfl

theorem extBytes_no47 (o : CachedImageOption) : ∀ x ∈ extBytes o, x ≠ 47 := by
  cases o
  · show ∀ x ∈ str "webp", x ≠ 47
    decide
  · show ∀ x ∈ str "svg", x ≠ 47
    decide

theorem lastMatch_singleton {α : Type} {p : α → Bool} {x : α} (h : p x = true) :
    lastMatch p [x] = some (0, x) := by
  show (if p x = true then some (0, x) else none) = some (0, x)
  rw [if_pos h]

/-- Extension replacement: when the source ends in `<stem>.<ext0>` (a last
segment with a non-empty stem and a dot-free, slash-free extension), the
resolved path's final segment is that stem with the original extension
replaced by the variant's. -/
theorem lastSegment_replacement {o : CachedImageOption} {pre e : List Nat}
    (hpre256 : ∀ b ∈ pre, b < 256) (he256 : ∀ b ∈ e, b < 256)
    (hpre_ne : pre ≠ []) (hh : pre.head? ≠ some 47) (hl : pre.getLast? ≠ some 47)
    (he_ne : e ≠ []) (he47 : ∀ b ∈ e, b ≠ 47) (he46 : ∀ b ∈ e, b ≠ 46) :
    lastSegment (CachedImage.get_file_path ⟨pre ++ 46 :: e, o⟩) =
      (bsplit 47 pre).getLastD [] ++ 46 :: extBytes o := by
  have hproj : (⟨pre ++ 46 :: e, o⟩ : CachedImage).src = pre ++ 46 :: e := rfl
  have hoptproj : (⟨pre ++ 46 :: e, o⟩ : CachedImage).option = o := rfl
  have hsrc256 : ∀ b ∈ (⟨pre ++ 46 :: e, o⟩ : CachedImage).src, b < 256 := by
    rw [hproj]
    intro b hb
    rcases List.mem_append.mp hb with hb | hb
    · exact hpre256 b hb
    · rcases List.mem_cons.mp hb with rfl | hb
      · omega
      · exact he256 b hb
  have htrim : trimSlashes (pre ++ 46 :: e) = pre ++ 46 :: e := by
    apply trimSlashes_of_ends
    · match pre, hpre_ne, hh with
      | a :: t, _, hh =>
        rw [List.cons_append]
        exact hh
    · rcases List.eq_nil_or_concat e with rfl | ⟨L, el, hL⟩
      · exact absurd rfl he_ne
      · rw [hL, List.concat_eq_append,
          show pre ++ 46 :: (L ++ [el]) = (pre ++ 46 :: L) ++ [el] from by simp,
          List.getLast?_concat]
        simp only [ne_eq, Option.some.injEq]
        exact he47 el (by rw [hL]; simp)
  have hbp_ne := bsplit_ne_nil 47 pre
  have hLSmem : (bsplit 47 pre).getLastD [] ∈ bsplit 47 pre := getLastD_mem _ hbp_ne
  have hLS47 : ∀ b ∈ (bsplit 47 pre).getLastD [], b ≠ 47 :=
    bsplit_mem_sep_free 47 pre _ hLSmem
  have hLSne : (bsplit 47 pre).getLastD [] ≠ [] := by
    rcases List.eq_nil_or_concat pre with rfl | ⟨P, pb, hP⟩
    · exact absurd rfl hpre_ne
    · have hpb : pb ≠ 47 := by
        rw [hP, List.concat_eq_append, List.getLast?_concat] at hl
        simpa using hl
      rw [hP, List.concat_eq_append,
        bsplit_append_no_sep P (by intro b hb; simp at hb; omega)]
      rw [getLastD_concat]
      simp
  have hsplit_src : bsplit 47 (pre ++ 46 :: e) =
      (bsplit 47 pre).dropLast ++ [(bsplit 47 pre).getLastD [] ++ 46 :: e] := by
    apply bsplit_append_no_sep
    intro b hb
    rcases List.mem_cons.mp hb with rfl | hb
    · omega
    · exact he47 b hb
  have hLSpos : 0 < ((bsplit 47 pre).getLastD []).length := by
    have h1 := hLSne
    rw [← List.length_pos] at h1
    exact h1
  have hepos : 0 < e.length := by
    have h2 := he_ne
    rw [← List.length_pos] at h2
    exact h2
  have hglast_good : goodSeg ((bsplit 47 pre).getLastD [] ++ 46 :: e) = true := by
    apply goodSeg_of
    · simp
    · intro hcontra
      have hlen := congrArg List.length hcontra
      simp only [List.length_append, List.length_cons, List.length_nil] at hlen
      omega
  have hlm : lastMatch goodSeg
      (bsplit 47 (trimSlashes (⟨pre ++ 46 :: e, o⟩ : CachedImage).src)) =
      some ((bsplit 47 pre).dropLast.length,
        (bsplit 47 pre).getLastD [] ++ 46 :: e) := by
    rw [hproj, htrim, hsplit_src]
    have h0 : lastMatch goodSeg [(bsplit 47 pre).getLastD [] ++ 46 :: e] =
        some (0, (bsplit 47 pre).getLastD [] ++ 46 :: e) :=
      lastMatch_singleton hglast_good
    have hmr := lastMatch_append_some goodSeg ((bsplit 47 pre).dropLast) _ h0
    rw [hmr]
    norm_num
  have hne_dd : (bsplit 47 pre).getLastD [] ++ 46 :: e ≠ [46, 46] := by
    intro hcontra
    have hlen := congrArg List.length hcontra
    simp only [List.length_append, List.length_cons, List.length_nil] at hlen
    omega
  have hpath := gfp_eval_replace (d := ⟨pre ++ 46 :: e, o⟩) hsrc256 hlm hne_dd
  have hstem : fileStem ((bsplit 47 pre).getLastD [] ++ 46 :: e) =
      (bsplit 47 pre).getLastD [] := by
    unfold fileStem
    have h46e : lastMatch (fun b => b == 46) e = none := by
      rw [lastMatch_eq_none_iff, List.any_eq_false]
      intro x hx
      simp [he46 x hx]
    have hlm46 : lastMatch (fun b => b == 46) (46 :: e) = some (0, 46) := by
      rw [lastMatch, h46e]
      simp
    have hall := lastMatch_append_some (fun b => b == 46)
      ((bsplit 47 pre).getLastD []) (46 :: e) hlm46
    rw [hall]
    show (if ((bsplit 47 pre).getLastD []).length + 0 = 0 then
        (bsplit 47 pre).getLastD [] ++ 46 :: e
      else List.take (((bsplit 47 pre).getLastD []).length + 0)
        ((bsplit 47 pre).getLastD [] ++ 46 :: e)) = (bsplit 47 pre).getLastD []
    rw [if_neg (by omega)]
    rw [Nat.add_zero, List.take_left]
  rw [hpath, hproj, htrim, hoptproj, hsplit_src, List.take_left, hstem]
  obtain ⟨henc, -⟩ := encToken_facts (d := ⟨pre ++ 46 :: e, o⟩) hsrc256
  unfold lastSegment
  rw [bsplit_path_full _ (fun x hx => (henc x hx).1)]
  rw [bsplit_joinSep (by simp) ?hfree]
  case hfree =>
    intro seg hseg x hx
    rcases List.mem_append.mp hseg with hseg | hseg
    · exact bsplit_mem_sep_free 47 pre seg ((List.dropLast_prefix _).subset hseg) x hx
    · rcases List.mem_cons.mp hseg with rfl | hseg
      · rcases List.mem_append.mp hx with hx | hx
        · exact hLS47 x hx
        · rcases List.mem_cons.mp hx with rfl | hx
          · omega
          · exact extBytes_no47 o x hx
      · simp at hseg
  rw [List.getLastD_cons, List.getLastD_cons, List.getLastD_cons, getLastD_concat]

/-! ## URL query codec round-trip and last-`?` behaviour -/

/-- Segments of a `?`-split never equal `"?"`, so the filter in
`from_url_encoded` keeps everything. -/
theorem filter_qmark_bsplit (s : List Nat) :
    (bsplit 63 s).filter (fun g => !(g == [63])) = bsplit 63 s := by
  apply List.filter_eq_self.mpr
  intro g hg
  have hfree := bsplit_mem_sep_free 63 s g hg
  simp only [Bool.not_eq_true']
  rw [beq_eq_false_iff_ne]
  intro hgg
  exact hfree 63 (by rw [hgg]; simp) rfl

/-- Query round-trip: parsing the encoded URL of any legal descriptor
recovers it. -/
theorem from_url_encoded_get_url_encoded {d : CachedImage} (hwf : d.Wf) :
    CachedImage.from_url_encoded (CachedImage.get_url_encoded d) = some d := by
  obtain ⟨hsrc, hopt⟩ := hwf
  obtain ⟨t, ht⟩ := qsSerialize_head d
  have hq63 : (qsSerialize d == [63]) = false := by
    rw [beq_eq_false_iff_ne, ht]
    simp
  unfold CachedImage.from_url_encoded CachedImage.get_url_encoded
  rw [bsplit_append_sep,
    bsplit_sep_free (p := str "/cache/image") (by decide),
    bsplit_sep_free (fun x hx => (qsSerialize_mem hsrc x hx).2)]
  rw [show ([str "/cache/image"] ++ [qsSerialize d]) =
    [str "/cache/image", qsSerialize d] from rfl]
  rw [List.filter_cons, List.filter_cons, List.filter_nil]
  rw [show (!(str "/cache/image" == [63])) = true from by decide, hq63]
  simp only [Bool.not_false, if_true, Bool.false_eq_true]
  rw [List.getLastD_cons, List.getLastD_cons]
  exact qsParse_qsSerialize ⟨hsrc, hopt⟩

/-- `from_url_encoded` only reads the part after the last `?`: prepending
anything (plus a `?`) leaves the result unchanged. -/
theorem from_url_encoded_after_last_qmark (p q : List Nat) :
    CachedImage.from_url_encoded (p ++ 63 :: q) = CachedImage.from_url_encoded q := by
  unfold CachedImage.from_url_encoded
  rw [bsplit_append_sep, List.filter_append, filter_qmark_bsplit p, filter_qmark_bsplit q]
  congr 1
  rw [List.getLastD_eq_getLast?, List.getLastD_eq_getLast?, List.getLast?_append]
  match hq : (bsplit 63 q).getLast? with
  | some x => rfl
  | none =>
    rw [List.getLast?_eq_none_iff] at hq
    exact absurd hq (bsplit_ne_nil 63 q)

/-! ## The optimizer service (`ImageOptimizer`, `create_optimized_image`,
`create_image_blur`)

The image crate's decoding/resizing/WebP-encoding are abstracted as an
`ImageLib` (the source calls them through `image::open`, `DynamicImage::resize`
and `webp::Encoder`); the filesystem is a map from paths to file bytes. -/

/-- `image::imageops::FilterType` values used by the source. -/
inductive FilterType where
  | CatmullRom
  | Nearest
deriving DecidableEq, Repr

/-- Abstract interface to the `image`/`webp` crates. -/
structure ImageLib where
  Img : Type
  openImg : List Nat → Option Img
  resize : Img → Nat → Nat → FilterType → Img
  webpEncode : Img → Nat → List Nat

/-- Filesystem state: bytes stored at each path. -/
def FS : Type := List Nat → Option (List Nat)

/-- Whole-file write. -/
def fsWrite (fs : FS) (p v : List Nat) : FS :=
  fun q => if q = p then some v else fs q

/-- `enum CreateImageError`. -/
inductive CreateImageError where
  | ImageError
  | JoinError
  | IOError
deriving DecidableEq, Repr

/-- Pieces of the SVG template of `create_image_blur`, transcribed
byte-for-byte (including trailing spaces before some newlines). -/
def svgT1 : List Nat :=
  str "\n<svg xmlns=\x22http://www.w3.org/2000/svg\x22 xmlns:xlink=\x22http://www.w3.org/1999/xlink\x22 width=\x22100%\x22 height=\x22100%\x22 "

def svgT2 : List Nat :=
  str " preserveAspectRatio=\x22none\x22>\n    <filter id=\x22a\x22 filterUnits=\x22userSpaceOnUse\x22 color-interpolation-filters=\x22sRGB\x22> \n        <feGaussianBlur "

def svgT3 : List Nat :=
  str "/> \n        <feComponentTransfer>\n            <feFuncA type=\x22discrete\x22 tableValues=\x221 1\x22/> \n        </feComponentTransfer> \n    </filter> \n    <image filter=\x22url(#a)\x22 x=\x220\x22 y=\x220\x22 height=\x22100%\x22 width=\x22100%\x22 href=\x22"

def svgT4 : List Nat := str "\x22/>\n</svg>\n"

/-- The interpolated SVG text with `viewBox="0 0 {sw} {sh}"`,
`stdDeviation="{sigma}" edgeMode="duplicate"` and `href="{uri}"`. -/
def svgTemplate (sw sh sigma : Nat) (uri : List Nat) : List Nat :=
  svgT1 ++ (str "viewBox=\x220 0 " ++ natDec sw ++ str " " ++ natDec sh ++ str "\x22") ++
  svgT2 ++ (str "stdDeviation=\x22" ++ natDec sigma ++ str "\x22 edgeMode=\x22duplicate\x22") ++
  svgT3 ++ uri ++ svgT4

/-- `fn create_image_blur`: open the source, resize to the small raster with
the `Nearest` filter, encode as WebP at the fixed quality 80, embed the
base64 payload in the SVG template. -/
def create_image_blur (L : ImageLib) (fs : FS) (source_path : List Nat) (blur : Blur) :
    Except CreateImageError (List Nat) :=
  match fs source_path with
  | none => .error .ImageError
  | some content =>
    match L.openImg content with
    | none => .error .ImageError
    | some img =>
      let img := L.resize img blur.width blur.height FilterType.Nearest
      let webp := L.webpEncode img 80
      let encoded := b64encode webp
      let uri := str "data:image/webp;base64," ++ encoded
      .ok (svgTemplate blur.svg_width blur.svg_height blur.sigma uri)

/-- `fn create_optimized_image`: dispatch on the variant, write the encoded
bytes at the save path (parent-directory creation is not modelled; it cannot
fail into the value level). -/
def create_optimized_image (L : ImageLib) (fs : FS) (config : CachedImageOption)
    (source_path save_path : List Nat) : Except CreateImageError FS :=
  match config with
  | .Resize r =>
    match fs source_path with
    | none => .error .ImageError
    | some content =>
      match L.openImg content with
      | none => .error .ImageError
      | some img =>
        let new_img := L.resize img r.width r.height FilterType.CatmullRom
        let webp := L.webpEncode new_img r.quality
        .ok (fsWrite fs save_path webp)
  | .Blur b =>
    match create_image_blur L fs source_path b with
    | .error e => .error e
    | .ok svg => .ok (fsWrite fs save_path svg)

/-- Permit/transform events of one `create_image` call, in program order.
`acquire` is the `semaphore.acquire().await`; `release` is the immediate drop
of the permit (the source binds it to `_`, so it is released at the end of
that statement, before the task is spawned); `tStart`/`tEnd` delimit the
spawned blocking transform. -/
inductive PEvent where
  | acquire
  | release
  | tStart
  | tEnd
deriving DecidableEq, Repr, BEq

/-- The events of the cache-miss path of `create_image`. -/
def create_image_miss_events : List PEvent :=
  [PEvent.acquire, PEvent.release, PEvent.tStart, PEvent.tEnd]

/-- `struct ImageOptimizer`. -/
structure ImageOptimizer where
  root_file_path : List Nat
  parallelism : Nat
deriving Repr

/-- `ImageOptimizer::get_file_path` (textually the same body as
`CachedImage::get_file_path`). -/
def ImageOptimizer.get_file_path (_self : ImageOptimizer) (cache_image : CachedImage) :
    List Nat :=
  CachedImage.get_file_path cache_image

/-- `ImageOptimizer::get_file_path_from_root`. -/
def ImageOptimizer.get_file_path_from_root (self : ImageOptimizer)
    (cache_image : CachedImage) : List Nat :=
  path_from_segments [self.root_file_path, self.get_file_path cache_image]

/-- `ImageOptimizer::create_image`: existence check, then (on a miss) the
permit acquire/immediate-release and the background transform.  Returns the
result (`Ok(created?)` or error), the final filesystem, and the permit/task
events that occurred. -/
def ImageOptimizer.create_image (self : ImageOptimizer) (L : ImageLib) (fs : FS)
    (cache_image : CachedImage) :
    Except CreateImageError Bool × FS × List PEvent :=
  let relative_path_created := self.get_file_path cache_image
  let save_path := path_from_segments [self.root_file_path, relative_path_created]
  let absolute_src_path := path_from_segments [self.root_file_path, cache_image.src]
  if (fs save_path).isSome then
    (.ok false, fs, [])
  else
    match create_optimized_image L fs cache_image.option absolute_src_path save_path with
    | .error e => (.error e, fs, create_image_miss_events)
    | .ok fs' => (.ok true, fs', create_image_miss_events)

-- Cross-check of the template decomposition against the source literal.
set_option maxRecDepth 40000 in
example : svgTemplate 100 100 20 (str "U") =
    str "\n<svg xmlns=\x22http://www.w3.org/2000/svg\x22 xmlns:xlink=\x22http://www.w3.org/1999/xlink\x22 width=\x22100%\x22 height=\x22100%\x22 viewBox=\x220 0 100 100\x22 preserveAspectRatio=\x22none\x22>\n    <filter id=\x22a\x22 filterUnits=\x22userSpaceOnUse\x22 color-interpolation-filters=\x22sRGB\x22> \n        <feGaussianBlur stdDeviation=\x2220\x22 edgeMode=\x22duplicate\x22/> \n        <feComponentTransfer>\n            <feFuncA type=\x22discrete\x22 tableValues=\x221 1\x22/> \n        </feComponentTransfer> \n    </filter> \n    <image filter=\x22url(#a)\x22 x=\x220\x22 y=\x220\x22 height=\x22100%\x22 width=\x22100%\x22 href=\x22U\x22/>\n</svg>\n" := by
  decide

/-! ## A two-call interleaving model for the permit discipline

Two concurrent cache-miss `create_image` calls are modelled as two tasks, each
replaying `create_image_miss_events` in program order; a scheduler interleaves
them one event at a time.  `tokio::sync::Semaphore` semantics: `acquire` blocks
(here: the step is not enabled) unless a permit is free; dropping the permit
returns it.  In the source the permit is bound to `_`, so it is dropped at the
end of the `let _ = ...` statement — before `spawn_blocking` — which is why
`release` precedes `tStart` in `create_image_miss_events`. -/

/-- Joint state of two replaying tasks: remaining events, permits in use, and
whether each task's transform is currently running. -/
structure SemState where
  rem0 : List PEvent
  rem1 : List PEvent
  used : Nat
  running0 : Bool
  running1 : Bool
deriving DecidableEq, Repr

/-- Effect of one event on the permit count under capacity `cap`; `none` means
the event is not enabled (an `acquire` with no free permit blocks). -/
def applyPermit (cap used : Nat) : PEvent → Option Nat
  | PEvent.acquire => if used < cap then some (used + 1) else none
  | PEvent.release => some (used - 1)
  | _ => some used

/-- One step of a single task: consume its next event if enabled. -/
def stepTask (cap : Nat) (rem : List PEvent) (used : Nat) (running : Bool) :
    Option (List PEvent × Nat × Bool) :=
  match rem with
  | [] => none
  | e :: rest =>
    match applyPermit cap used e with
    | none => none
    | some used2 =>
      let running2 := match e with
        | PEvent.tStart => true
        | PEvent.tEnd => false
        | _ => running
      some (rest, used2, running2)

/-- Run a schedule (`false` steps task 0, `true` steps task 1); `none` when a
scheduled step is not enabled. -/
def runSched (cap : Nat) : SemState → List Bool → Option SemState
  | st, [] => some st
  | st, false :: s =>
    match stepTask cap st.rem0 st.used st.running0 with
    | none => none
    | some (rem, used, run) => runSched cap ⟨rem, st.rem1, used, run, st.running1⟩ s
  | st, true :: s =>
    match stepTask cap st.rem1 st.used st.running1 with
    | none => none
    | some (rem, used, run) => runSched cap ⟨st.rem0, rem, used, st.running0, run⟩ s

/-- Unfolding equation of `create_optimized_image` on the Resize variant. -/
theorem create_optimized_image_resize (L : ImageLib) (fs : FS) (r : Resize)
    (sp dp : List Nat) :
    create_optimized_image L fs (.Resize r) sp dp =
      match fs sp with
      | none => .error .ImageError
      | some content =>
        match L.openImg content with
        | none => .error .ImageError
        | some img =>
          .ok (fsWrite fs dp
            (L.webpEncode (L.resize img r.width r.height FilterType.CatmullRom)
              r.quality)) := rfl

/-- Unfolding equation of `create_optimized_image` on the Blur variant. -/
theorem create_optimized_image_blur_eq (L : ImageLib) (fs : FS) (b : Blur)
    (sp dp : List Nat) :
    create_optimized_image L fs (.Blur b) sp dp =
      match create_image_blur L fs sp b with
      | .error e => .error e
      | .ok svg => .ok (fsWrite fs dp svg) := rfl

/-- A successful `create_optimized_image` has written the save path. -/
theorem create_optimized_image_writes {L : ImageLib} {fs : FS}
    {config : CachedImageOption} {source_path save_path : List Nat} {fs2 : FS}
    (h : create_optimized_image L fs config source_path save_path = .ok fs2) :
    (fs2 save_path).isSome = true := by
  cases config with
  | Resize r =>
    rw [create_optimized_image_resize] at h
    split at h
    · exact absurd h (by simp)
    · split at h
      · exact absurd h (by simp)
      · simp only [Except.ok.injEq] at h
        rw [← h]
        simp [fsWrite]
  | Blur b =>
    rw [create_optimized_image_blur_eq] at h
    split at h
    · exact absurd h (by simp)
    · simp only [Except.ok.injEq] at h
      rw [← h]
      simp [fsWrite]

/-- Unfolding equation of `ImageOptimizer.create_image`. -/
theorem create_image_eq (self : ImageOptimizer) (L : ImageLib) (fs : FS)
    (d : CachedImage) :
    self.create_image L fs d =
      if (fs (path_from_segments [self.root_file_path, self.get_file_path d])).isSome then
        (.ok false, fs, [])
      else
        match create_optimized_image L fs d.option
            (path_from_segments [self.root_file_path, d.src])
            (path_from_segments [self.root_file_path, self.get_file_path d]) with
        | .error e => (.error e, fs, create_image_miss_events)
        | .ok fs2 => (.ok true, fs2, create_image_miss_events) := rfl

/-- `create_image_blur` after a successful filesystem read. -/
theorem create_image_blur_some (L : ImageLib) (fs : FS) (sp : List Nat) (b : Blur)
    (content : List Nat) (h : fs sp = some content) :
    create_image_blur L fs sp b =
      match L.openImg content with
      | none => .error .ImageError
      | some img =>
        .ok (svgTemplate b.svg_width b.svg_height b.sigma
          (str "data:image/webp;base64," ++
            b64encode (L.webpEncode (L.resize img b.width b.height FilterType.Nearest)
              80))) := by
  unfold create_image_blur
  rw [h]

/-- Full evaluation of `create_image_blur` when the source opens. -/
theorem create_image_blur_eval {L : ImageLib} {fs : FS} {sp content : List Nat}
    {img : L.Img} (b : Blur) (hfs : fs sp = some content)
    (hopen : L.openImg content = some img) :
    create_image_blur L fs sp b =
      .ok (svgTemplate b.svg_width b.svg_height b.sigma
        (str "data:image/webp;base64," ++
          b64encode (L.webpEncode (L.resize img b.width b.height FilterType.Nearest)
            80))) := by
  rw [create_image_blur_some L fs sp b content hfs, hopen]

/-! ## Concrete instances used to exercise the service-level theorems -/

/-- A concrete `ImageLib` on a one-point image type. -/
def witL : ImageLib where
  Img := Unit
  openImg := fun _ => some ()
  resize := fun i _ _ _ => i
  webpEncode := fun _ _ => [77]

/-- A concrete optimizer with an empty root and one permit. -/
def witSelf : ImageOptimizer := ⟨[], 1⟩

/-- A concrete descriptor. -/
def witD : CachedImage := ⟨str "img.png", .Resize ⟨100, 100, 75⟩⟩

/-- Where `witD`'s source lives under `witSelf`'s root. -/
def witSrcPath : List Nat := path_from_segments [witSelf.root_file_path, witD.src]

/-- Where `witD`'s output goes under `witSelf`'s root. -/
def witSavePath : List Nat :=
  path_from_segments [witSelf.root_file_path, witSelf.get_file_path witD]

/-- A filesystem holding only the source image. -/
def witFs : FS := fun q => if q = witSrcPath then some [9] else none

/-- `witFs` after the optimizer has written the output. -/
def witFs1 : FS := fsWrite witFs witSavePath [77]

/-- A filesystem holding one source file at path `s`. -/
def witBlurFs : FS := fun q => if q = str "s" then some [9] else none

/-- A concrete blur request (the repository test's parameters). -/
def witBlur : Blur := ⟨25, 25, 100, 100, 20⟩

/-! ## The claims -/

/-- Claim C1: the source claims the concurrency permit is held until the
background transform completes, bounding simultaneous transforms by the
parallelism.  In the code the permit is bound to `_`, so it is dropped (and
released) immediately after `acquire`, before `spawn_blocking`: in the
event order of the miss path `release` precedes `tStart`, and under
capacity 1 a schedule of two miss calls reaches a state where both
transforms are running at once. -/
theorem C1_permit_dropped_before_transform :
    create_image_miss_events.indexOf PEvent.release <
      create_image_miss_events.indexOf PEvent.tStart ∧
    runSched 1 ⟨create_image_miss_events, create_image_miss_events, 0, false, false⟩
        [false, false, true, true, false, true] =
      some ⟨[PEvent.tEnd], [PEvent.tEnd], 0, true, true⟩ := by decide

/-- Claim C2 (amended): the path round-trip
`from_file_path (get_file_path d) = some d` holds for every well-formed
descriptor whose trimmed `src` contains at least one path segment that is
neither empty nor `.` (so `set_extension` edits a `src` segment and not the
base64 token). -/
theorem C2_path_roundtrip {d : CachedImage} (hwf : d.Wf)
    (hgood : (bsplit 47 (trimSlashes d.src)).any goodSeg = true) :
    CachedImage.from_file_path (CachedImage.get_file_path d) = some d :=
  from_file_path_get_file_path hwf hgood

set_option maxRecDepth 100000 in
/-- Claim C2 counterexample: the empty `src` is a legal descriptor, yet the
round-trip fails — `set_extension` then mutates the base64 token segment
itself, so no segment of the resulting path decodes back. -/
theorem C2_counterexample :
    (⟨[], CachedImageOption.Resize ⟨1, 1, 1⟩⟩ : CachedImage).Wf ∧
    CachedImage.from_file_path
        (CachedImage.get_file_path ⟨[], CachedImageOption.Resize ⟨1, 1, 1⟩⟩) ≠
      some ⟨[], CachedImageOption.Resize ⟨1, 1, 1⟩⟩ := by decide

set_option maxRecDepth 100000 in
/-- Claim C2 witness: the round-trip at a concrete ordinary descriptor. -/
theorem C2_witness :
    CachedImage.from_file_path
        (CachedImage.get_file_path ⟨str "img.png", CachedImageOption.Resize ⟨100, 100, 75⟩⟩) =
      some ⟨str "img.png", CachedImageOption.Resize ⟨100, 100, 75⟩⟩ :=
  C2_path_roundtrip (by decide) (by decide)

/-- Claim C3: the query encoding round-trips for every well-formed
descriptor, `from_url_encoded (get_url_encoded d) = some d` (and the encoder
is a function of the descriptor alone, so it is deterministic). -/
theorem C3_query_roundtrip {d : CachedImage} (hwf : d.Wf) :
    CachedImage.from_url_encoded (CachedImage.get_url_encoded d) = some d :=
  from_url_encoded_get_url_encoded hwf

set_option maxRecDepth 10000 in
/-- Claim C3 witness: the query round-trip at the repository test's
descriptor. -/
theorem C3_witness :
    CachedImage.from_url_encoded
        (CachedImage.get_url_encoded ⟨str "test.jpg", CachedImageOption.Resize ⟨100, 100, 75⟩⟩) =
      some ⟨str "test.jpg", CachedImageOption.Resize ⟨100, 100, 75⟩⟩ :=
  C3_query_roundtrip (by decide)

/-- Claim C4: `get_file_path` is injective on well-formed descriptors —
distinct descriptors resolve to distinct paths (and the path is a pure
function of the descriptor, so the same descriptor always resolves to the
same path). -/
theorem C4_path_content_addressing {d1 d2 : CachedImage} (h1 : d1.Wf) (h2 : d2.Wf)
    (hne : d1 ≠ d2) :
    CachedImage.get_file_path d1 ≠ CachedImage.get_file_path d2 :=
  get_file_path_inj h1 h2 hne

/-- Claim C4 witness: two descriptors differing only in quality resolve to
different paths. -/
theorem C4_witness :
    CachedImage.get_file_path ⟨str "a.png", CachedImageOption.Resize ⟨1, 1, 1⟩⟩ ≠
      CachedImage.get_file_path ⟨str "a.png", CachedImageOption.Resize ⟨1, 1, 2⟩⟩ :=
  C4_path_content_addressing (by decide) (by decide) (by decide)

/-- Claim C5: the cache-hit fast path — if the save path already holds a
file, `create_image` returns `Ok(false)` with the filesystem untouched and
no permit or transform events; and on an initially missing path whose
transform succeeds, two sequential calls yield `Ok(true)` then `Ok(false)`,
the second leaving the bytes written by the first unchanged. -/
theorem C5_create_image_idempotent (self : ImageOptimizer) (L : ImageLib) (fs : FS)
    (d : CachedImage) :
    ((fs (path_from_segments [self.root_file_path, self.get_file_path d])).isSome = true →
      self.create_image L fs d = (.ok false, fs, [])) ∧
    (∀ fs1,
      (fs (path_from_segments [self.root_file_path, self.get_file_path d])).isSome = false →
      create_optimized_image L fs d.option
          (path_from_segments [self.root_file_path, d.src])
          (path_from_segments [self.root_file_path, self.get_file_path d]) = .ok fs1 →
      self.create_image L fs d = (.ok true, fs1, create_image_miss_events) ∧
      self.create_image L fs1 d = (.ok false, fs1, [])) := by
  constructor
  · intro hhit
    rw [create_image_eq, hhit]
    simp
  · intro fs1 hmiss htr
    have hw : (fs1 (path_from_segments [self.root_file_path, self.get_file_path d])).isSome =
        true := create_optimized_image_writes htr
    constructor
    · rw [create_image_eq, hmiss, htr]
      simp
    · rw [create_image_eq, hw]
      simp

set_option maxRecDepth 200000 in
/-- Claim C5 witness: a concrete miss-then-hit pair of calls. -/
theorem C5_witness :
    witSelf.create_image witL witFs witD = (.ok true, witFs1, create_image_miss_events) ∧
    witSelf.create_image witL witFs1 witD = (.ok false, witFs1, []) :=
  (C5_create_image_idempotent witSelf witL witFs witD).2 witFs1 (by decide) (by rfl)

/-- Claim C6 (amended): a Resize descriptor's path ends in `.webp` and a
Blur descriptor's path ends in `.svg`, provided the last good (non-empty,
non-`.`) segment of the trimmed `src` is not `..` — `PathBuf::set_extension`
is a no-op on a `..` file name, leaving no extension at all. -/
theorem C6_extension_suffix {d : CachedImage} (hwf : d.Wf)
    (hdd : match lastMatch goodSeg (bsplit 47 (trimSlashes d.src)) with
      | some (_, g) => g ≠ ([46, 46] : List Nat)
      | none => True) :
    match d.option with
    | .Resize _ => str ".webp" <:+ CachedImage.get_file_path d
    | .Blur _ => str ".svg" <:+ CachedImage.get_file_path d := by
  have hdd2 : ∀ i g, lastMatch goodSeg (bsplit 47 (trimSlashes d.src)) = some (i, g) →
      g ≠ [46, 46] := by
    intro i g hig
    rw [hig] at hdd
    exact hdd
  have h := get_file_path_ext_suffix hwf hdd2
  obtain ⟨src, opt⟩ := d
  cases opt with
  | Resize r =>
    show str ".webp" <:+ CachedImage.get_file_path ⟨src, CachedImageOption.Resize r⟩
    rw [show str ".webp" = 46 :: extBytes (CachedImageOption.Resize r) from rfl]
    exact h
  | Blur b =>
    show str ".svg" <:+ CachedImage.get_file_path ⟨src, CachedImageOption.Blur b⟩
    rw [show str ".svg" = 46 :: extBytes (CachedImageOption.Blur b) from rfl]
    exact h

set_option maxRecDepth 100000 in
/-- Claim C6 counterexample: a legal Resize descriptor whose `src` is `..`
resolves to a path that does not end in `.webp`. -/
theorem C6_counterexample :
    (⟨str "..", CachedImageOption.Resize ⟨1, 1, 1⟩⟩ : CachedImage).Wf ∧
    ¬ (str ".webp" <:+
        CachedImage.get_file_path ⟨str "..", CachedImageOption.Resize ⟨1, 1, 1⟩⟩) := by decide

set_option maxRecDepth 100000 in
/-- Claim C6 witness: an ordinary Resize descriptor's path ends in `.webp`. -/
theorem C6_witness :
    str ".webp" <:+
      CachedImage.get_file_path ⟨str "img.png", CachedImageOption.Resize ⟨100, 100, 75⟩⟩ :=
  @C6_extension_suffix ⟨str "img.png", CachedImageOption.Resize ⟨100, 100, 75⟩⟩
    (by decide)
    (by
      show match lastMatch goodSeg (bsplit 47 (trimSlashes (str "img.png"))) with
        | some (_, g) => g ≠ ([46, 46] : List Nat)
        | none => True
      rw [show lastMatch goodSeg (bsplit 47 (trimSlashes (str "img.png"))) =
          some (0, str "img.png") from by decide]
      decide)

set_option maxRecDepth 10000 in
/-- Claim C7 (amended): decoding rejects garbage, a missing required field,
and values outside the declared machine-integer types (`u32`/`u8`); but the
`0-100` quality range of the spec is not enforced — any `u8` value parses. -/
theorem C7_amended :
    CachedImage.from_url_encoded (str "garbage") = none ∧
    CachedImage.from_url_encoded (str "src=a&option[r][w]=1&option[r][h]=1") = none ∧
    CachedImage.from_url_encoded
        (str "src=a&option[r][w]=1&option[r][h]=1&option[r][q]=300") = none ∧
    CachedImage.from_url_encoded
        (str "src=a&option[r][w]=4294967296&option[r][h]=1&option[r][q]=1") = none := by
  decide

set_option maxRecDepth 10000 in
/-- Claim C7 counterexample: a quality of 200 — outside the documented
0-100 range but inside `u8` — decodes successfully, so out-of-range values
are not rejected. -/
theorem C7_counterexample :
    CachedImage.from_url_encoded
        (str "src=a&option[r][w]=1&option[r][h]=1&option[r][q]=200") =
      some ⟨str "a", CachedImageOption.Resize ⟨1, 1, 200⟩⟩ := by decide

/-- Claim C8: `from_url_encoded` reads only the part after the last `?`:
for every prefix `p` and tail `q`, decoding `p ++ "?" ++ q` equals decoding
`q`, so a full URL decodes exactly like its bare query string. -/
theorem C8_after_last_qmark (p q : List Nat) :
    CachedImage.from_url_encoded (p ++ 63 :: q) = CachedImage.from_url_encoded q :=
  from_url_encoded_after_last_qmark p q

/-- Claim C9: when the source file opens, the blur transform resizes to the
small `(width, height)` raster with the `Nearest` filter, WebP-encodes at
the fixed quality 80, and returns SVG text containing
`viewBox="0 0 {svg_width} {svg_height}"`,
`stdDeviation="{sigma}" edgeMode="duplicate"`, and a
`data:image/webp;base64,` URI whose payload is the base64 of those WebP
bytes. -/
theorem C9_blur_pipeline {L : ImageLib} {fs : FS} {source_path : List Nat} {b : Blur}
    {content : List Nat} {img : L.Img}
    (hfs : fs source_path = some content) (hopen : L.openImg content = some img) :
    ∃ out, create_image_blur L fs source_path b = .ok out ∧
      (str "viewBox=\x220 0 " ++ natDec b.svg_width ++ str " " ++ natDec b.svg_height ++
        str "\x22") <:+: out ∧
      (str "stdDeviation=\x22" ++ natDec b.sigma ++ str "\x22 edgeMode=\x22duplicate\x22")
        <:+: out ∧
      (str "data:image/webp;base64," ++
        b64encode (L.webpEncode (L.resize img b.width b.height FilterType.Nearest) 80))
        <:+: out := by
  refine ⟨svgTemplate b.svg_width b.svg_height b.sigma
    (str "data:image/webp;base64," ++
      b64encode (L.webpEncode (L.resize img b.width b.height FilterType.Nearest) 80)),
    create_image_blur_eval b hfs hopen, ?_, ?_, ?_⟩
  · exact ⟨svgT1,
      svgT2 ++ (str "stdDeviation=\x22" ++ natDec b.sigma ++
        str "\x22 edgeMode=\x22duplicate\x22") ++ svgT3 ++
      (str "data:image/webp;base64," ++
        b64encode (L.webpEncode (L.resize img b.width b.height FilterType.Nearest) 80)) ++
      svgT4,
      by simp [svgTemplate, List.append_assoc]⟩
  · exact ⟨svgT1 ++ (str "viewBox=\x220 0 " ++ natDec b.svg_width ++ str " " ++
        natDec b.svg_height ++ str "\x22") ++ svgT2,
      svgT3 ++
      (str "data:image/webp;base64," ++
        b64encode (L.webpEncode (L.resize img b.width b.height FilterType.Nearest) 80)) ++
      svgT4,
      by simp [svgTemplate, List.append_assoc]⟩
  · exact ⟨svgT1 ++ (str "viewBox=\x220 0 " ++ natDec b.svg_width ++ str " " ++
        natDec b.svg_height ++ str "\x22") ++ svgT2 ++
      (str "stdDeviation=\x22" ++ natDec b.sigma ++ str "\x22 edgeMode=\x22duplicate\x22") ++
      svgT3,
      svgT4,
      by simp [svgTemplate, List.append_assoc]⟩

/-- Claim C9 witness: the blur pipeline at a concrete library, filesystem
and blur request. -/
theorem C9_witness :
    ∃ out, create_image_blur witL witBlurFs (str "s") witBlur = .ok out ∧
      (str "viewBox=\x220 0 " ++ natDec 100 ++ str " " ++ natDec 100 ++ str "\x22")
        <:+: out ∧
      (str "stdDeviation=\x22" ++ natDec 20 ++ str "\x22 edgeMode=\x22duplicate\x22")
        <:+: out ∧
      (str "data:image/webp;base64," ++ b64encode [77]) <:+: out :=
  @C9_blur_pipeline witL witBlurFs (str "s") witBlur [9] () (by rfl) (by rfl)

/-- Claim C10: `set_extension` replaces the source's final extension rather
than appending: for a `src` of the shape `pre ++ "." ++ ext` (with `pre`
slash-normalised, non-empty; `ext` non-empty, free of `/` and `.`), the last
segment of the resolved path is the last segment of `pre` followed by
`.webp`/`.svg` — independent of `ext`, so two descriptors differing only in
the source extension share their final file name. -/
theorem C10_src_extension_dropped {o : CachedImageOption} {pre e1 e2 : List Nat}
    (hpre256 : ∀ b ∈ pre, b < 256) (he1256 : ∀ b ∈ e1, b < 256)
    (he2256 : ∀ b ∈ e2, b < 256)
    (hpre_ne : pre ≠ []) (hh : pre.head? ≠ some 47) (hl : pre.getLast? ≠ some 47)
    (he1_ne : e1 ≠ []) (he1_47 : ∀ b ∈ e1, b ≠ 47) (he1_46 : ∀ b ∈ e1, b ≠ 46)
    (he2_ne : e2 ≠ []) (he2_47 : ∀ b ∈ e2, b ≠ 47) (he2_46 : ∀ b ∈ e2, b ≠ 46) :
    lastSegment (CachedImage.get_file_path ⟨pre ++ 46 :: e1, o⟩) =
      (bsplit 47 pre).getLastD [] ++ 46 :: extBytes o ∧
    lastSegment (CachedImage.get_file_path ⟨pre ++ 46 :: e2, o⟩) =
      lastSegment (CachedImage.get_file_path ⟨pre ++ 46 :: e1, o⟩) :=
  ⟨lastSegment_replacement hpre256 he1256 hpre_ne hh hl he1_ne he1_47 he1_46,
   (lastSegment_replacement hpre256 he2256 hpre_ne hh hl he2_ne he2_47 he2_46).trans
     (lastSegment_replacement hpre256 he1256 hpre_ne hh hl he1_ne he1_47 he1_46).symm⟩

set_option maxRecDepth 100000 in
/-- Claim C10 witness: `img.png` and `img.jpg` under the same transform
yield paths with the same final file name `img.webp`. -/
theorem C10_witness :
    lastSegment (CachedImage.get_file_path ⟨str "img" ++ 46 :: str "png",
        CachedImageOption.Resize ⟨1, 1, 1⟩⟩) =
      (bsplit 47 (str "img")).getLastD [] ++
        46 :: extBytes (CachedImageOption.Resize ⟨1, 1, 1⟩) ∧
    lastSegment (CachedImage.get_file_path ⟨str "img" ++ 46 :: str "jpg",
        CachedImageOption.Resize ⟨1, 1, 1⟩⟩) =
      lastSegment (CachedImage.get_file_path ⟨str "img" ++ 46 :: str "png",
        CachedImageOption.Resize ⟨1, 1, 1⟩⟩) :=
  C10_src_extension_dropped (by decide) (by decide) (by decide) (by decide) (by decide)
    (by decide) (by decide) (by decide) (by decide) (by decide) (by decide) (by decide)
